import Mathlib

/-!
# Verification of the task execution engine of the agentic browser sidebar

Shallow embedding of the task execution engine implemented in
`AISidebar` (`executeSequence` / `executeTask`): the ordered task list,
its per-task configuration, the execution-status record, the context
threading between tasks, bounded looping via a trailing `loop` task,
pause polling, and the fail-fast error policy.

The page view (webview) is an external collaborator: its operations are
modelled as an oracle `PageOps σ` over an abstract world state `σ`, so a
handler's success or failure and any cross-pass page mutation are
represented faithfully without modelling the DOM itself.  The one DOM
script whose logic the spec describes quantitatively (the extract-dom
script) is embedded as a Lean function over a small DOM snapshot type.
-/

namespace AgenticBrowser

/-- Task types, as the TS union
`'search' | 'find' | 'click' | 'extract-dom' | 'type' | 'enter' | 'scroll' | 'wait' | 'loop'`
(`typeInput` embeds the `'type'` kind). -/
inductive TaskType where
  | search
  | find
  | click
  | extractDom
  | typeInput
  | enter
  | scroll
  | wait
  | loop
deriving DecidableEq, Repr

/-- Task status: `'pending' | 'running' | 'completed' | 'failed'`. -/
inductive TaskStatus where
  | pending
  | running
  | completed
  | failed
deriving DecidableEq, Repr

/-- One item produced by the extract-dom script: `{title, url?, type}`
with `type` either `"link"` or `"heading"`. -/
structure ExtractItem where
  title : String
  url : Option String
  type : String
deriving DecidableEq, Repr

/-- Result object of a click handler (`{success, url}` or
`{success, element, text}`; only its presence matters to the engine). -/
structure ClickInfo where
  element : String := ""
  text : String := ""
  url : String := ""
deriving DecidableEq, Repr

/-- Values stored in the execution context. -/
inductive Value where
  | str (s : String)
  | items (xs : List ExtractItem)
  | clicked (c : ClickInfo)
deriving DecidableEq, Repr

/-- The execution context: the plain JS object threaded between tasks,
as an association list from well-known keys to values. -/
abbrev Ctx := List (String × Value)

/-- JS object spread `{...a, ...b}`: keys of `b` override keys of `a`. -/
def mergeCtx (a b : Ctx) : Ctx :=
  a.filter (fun p => (List.lookup p.1 b).isNone) ++ b

/-- Read a context key. -/
def ctxGet (c : Ctx) (k : String) : Option Value :=
  List.lookup k c

/-- Read a context key expected to hold a string (e.g. `lastFoundText`). -/
def ctxGetStr (c : Ctx) (k : String) : Option String :=
  match ctxGet c k with
  | some (.str s) => some s
  | _ => none

/-- JS truthiness of an optional string: `undefined` and `""` are falsy. -/
def jsTruthyStr (o : Option String) : Bool :=
  match o with
  | none => false
  | some s => !s.isEmpty

/-- JS truthiness of a context value (`""` falsy; objects/arrays truthy). -/
def valueTruthy (v : Value) : Bool :=
  match v with
  | .str s => !s.isEmpty
  | .items _ => true
  | .clicked _ => true

/-- JS truthiness of `context.key`. -/
def ctxTruthy (c : Ctx) (k : String) : Bool :=
  match ctxGet c k with
  | some v => valueTruthy v
  | none => false

/-- JS `x || y` on optional strings (returns `y` whenever `x` is falsy). -/
def jsOrStr (a b : Option String) : Option String :=
  if jsTruthyStr a then a else b

/-- JS `x || d` on an optional number (`undefined` and `0` are falsy;
negative numbers are truthy and survive). -/
def jsOrInt (o : Option Int) (d : Int) : Int :=
  match o with
  | none => d
  | some n => if n = 0 then d else n

/-- Per-type task configuration (all fields optional, validated at
execution time).  `typeTextVal` embeds the source field `typeText`. -/
structure TaskConfig where
  searchQuery : Option String := none
  text : Option String := none
  selector : Option String := none
  clickSelector : Option String := none
  typeTextVal : Option String := none
  targetField : Option String := none
  scrollAmount : Option Int := none
  waitTime : Option Int := none
  loopCount : Option Int := none
deriving DecidableEq, Repr

/-- A task descriptor:
`{id, type, config, status, result?, error?}`. -/
structure Task where
  id : String
  type : TaskType
  config : TaskConfig
  status : TaskStatus := .pending
  result : Option Ctx := none
  error : Option String := none
deriving DecidableEq, Repr

/-- The execution-status record of the task store. -/
structure ExecutionStatus where
  isExecuting : Bool := false
  isPaused : Bool := false
  currentTaskIndex : Int := -1
  totalTasks : Nat := 0
  currentLoop : Option Int := none
  totalLoops : Option Int := none
  extractedData : Option (List ExtractItem) := none
deriving DecidableEq, Repr

/-- A partial update to the execution status.  An outer `none` leaves the
field untouched; `currentLoop := some none` / `totalLoops := some none`
model an explicit `undefined` in the update object. -/
structure StatusUpdate where
  isExecuting : Option Bool := none
  isPaused : Option Bool := none
  currentTaskIndex : Option Int := none
  totalTasks : Option Nat := none
  currentLoop : Option (Option Int) := none
  totalLoops : Option (Option Int) := none
  extractedData : Option (List ExtractItem) := none
deriving DecidableEq, Repr

/-- Modelled from the spec: the task store's `setExecutionStatus`
(store module not in the sources given) merges a partial update into the
execution-status record, per the spec's "updated per-task and per-loop"
lifecycle; keys present in the update override, keys absent are kept. -/
def applyStatusUpdate (s : ExecutionStatus) (u : StatusUpdate) : ExecutionStatus :=
  { isExecuting := u.isExecuting.getD s.isExecuting
    isPaused := u.isPaused.getD s.isPaused
    currentTaskIndex := u.currentTaskIndex.getD s.currentTaskIndex
    totalTasks := u.totalTasks.getD s.totalTasks
    currentLoop := u.currentLoop.getD s.currentLoop
    totalLoops := u.totalLoops.getD s.totalLoops
    extractedData :=
      match u.extractedData with
      | some d => some d
      | none => s.extractedData }

/-- A partial update to one task (`status` / `result` / `error`). -/
structure TaskUpdate where
  status : Option TaskStatus := none
  result : Option Ctx := none
  error : Option String := none
deriving DecidableEq, Repr

/-- Merge a partial update into one task if its id matches. -/
def applyTaskUpdateFn (tid : String) (u : TaskUpdate) (t : Task) : Task :=
  if t.id = tid then
    { t with
      status := u.status.getD t.status
      result := match u.result with | some r => some r | none => t.result
      error := match u.error with | some e => some e | none => t.error }
  else t

/-- Modelled from the spec: the task store's `updateTask(taskId, updates)`
(store module not in the sources given) merges the partial update into
the task with the given id, per the spec's "mutated in place by the
engine during execution (status/result/error)". -/
def applyTaskUpdate (tasks : List Task) (tid : String) (u : TaskUpdate) : List Task :=
  tasks.map (applyTaskUpdateFn tid u)

/-- DOM snapshot of an anchor element, as read by the extract script
(`href`, trimmed-able text content, `offsetParent !== null` visibility). -/
structure DomLink where
  href : String
  textContent : String
  visible : Bool
deriving DecidableEq, Repr

/-- DOM snapshot of an `h1`/`h2`/`h3` element. -/
structure DomHeading where
  textContent : String
deriving DecidableEq, Repr

/-- DOM snapshot seen by the extract-dom script: the page's anchors in
document order and its `h1, h2, h3` headings in document order. -/
structure Dom where
  links : List DomLink
  headings : List DomHeading
deriving DecidableEq, Repr

/-- The extract-dom script injected by `executeTask`:
links with a truthy `href`, non-empty trimmed text and a non-null
`offsetParent`, capped at the first 10, each as
`{title, url, type: 'link'}`; then the first 5 headings, each as
`{title, type: 'heading'}`. -/
def extractScript (d : Dom) : List ExtractItem :=
  ((d.links.filter (fun a =>
      !a.href.isEmpty && !a.textContent.trim.isEmpty && a.visible)).take 10).map
    (fun a => { title := a.textContent.trim, url := some a.href, type := "link" })
  ++ (d.headings.take 5).map
    (fun h => { title := h.textContent.trim, url := none, type := "heading" })

/-- The page-view control surface and the injected DOM scripts, as an
oracle over an abstract world `σ` (the webview and its page are external
mutable state; scripts other than the extract-dom one interact with the
DOM in ways the engine treats as opaque, observing only success/failure
and a small result object). -/
structure PageOps (σ : Type) where
  encodeURIComponent : String → String
  loadURL : σ → String → σ
  visualOutline : σ → σ
  stopFindInPage : σ → String → σ
  clearFindHighlights : σ → σ
  findInPage : σ → String → σ
  scrollToFoundText : σ → String → σ × Bool
  clickFirstExternalLink : σ → σ × Except String ClickInfo
  clickByFoundText : σ → String → σ × Except String ClickInfo
  clickBySelector : σ → String → σ × Except String Unit
  domSnapshot : σ → Dom
  typeIntoInput : σ → Option String → Option String → String → σ × Except String (String × String)
  pressEnter : σ → σ × Except String (Option String)
  scrollBy : σ → Int → σ

/-- Ghost trace events recorded by the embedding: a dispatch of the task
at list index `idx` during pass `pass` (with the context it received and
the poll instant at which the pause wait ended), its successful result,
or its failure. -/
inductive Event where
  | dispatch (pass : Nat) (idx : Nat) (tid : String) (tt : TaskType) (ctx : Ctx) (pollTime : Nat)
  | taskDone (pass : Nat) (idx : Nat) (res : Ctx)
  | taskFailed (pass : Nat) (idx : Nat) (msg : String)
deriving DecidableEq, Repr

/-- The engine-visible state: the task store's list and status record,
the log sink, the `alert` messages raised, the ghost trace, the poll
clock, and the external world. -/
structure EngineState (σ : Type) where
  tasks : List Task
  status : ExecutionStatus
  logs : List String
  alerts : List String
  trace : List Event
  clock : Nat
  world : σ

/-- Append one log line (`addLog`). -/
def addLog {σ : Type} (st : EngineState σ) (s : String) : EngineState σ :=
  { st with logs := st.logs ++ [s] }

/-- Resolution of the text a `find` task searches for:
`let textToFind = task.config.text || task.config.selector;`
then, if that is falsy and `context.lastFoundText` is truthy, the
inherited `lastFoundText`; `none` models the
`throw new Error('Text to find is required')` case. -/
def resolveFindText (cfg : TaskConfig) (ctx : Ctx) : Option String :=
  let t1 := jsOrStr cfg.text cfg.selector
  let t2 :=
    if !jsTruthyStr t1 && jsTruthyStr (ctxGetStr ctx "lastFoundText") then
      ctxGetStr ctx "lastFoundText"
    else t1
  if jsTruthyStr t2 then t2 else none

/-- The per-task dispatcher `executeTask(task, webview, context)`:
returns the updated engine state (world, logs, and — for extract-dom —
the status record) and either the partial context result or the thrown
error message.  Fixed human-timing delays are not modelled (time is not
observable in this embedding). -/
def executeTask {σ : Type} (ops : PageOps σ) (st : EngineState σ) (task : Task) (ctx : Ctx) :
    EngineState σ × Except String Ctx :=
  match task.type with
  | .search =>
    if !jsTruthyStr task.config.searchQuery then
      (st, .error "Search query is required")
    else
      let q := task.config.searchQuery.getD ""
      let w := ops.visualOutline st.world
      let w := ops.loadURL w ("https://duckduckgo.com/?q=" ++ ops.encodeURIComponent q)
      ({ st with world := w }, .ok [("lastSearchQuery", .str q)])
  | .find =>
    let w := ops.stopFindInPage st.world "clearSelection"
    let w := ops.clearFindHighlights w
    match resolveFindText task.config ctx with
    | none => ({ st with world := w }, .error "Text to find is required")
    | some textToFind =>
      let st := addLog { st with world := w } ("  Searching for: " ++ textToFind)
      let w := ops.findInPage st.world textToFind
      let (w, found) := ops.scrollToFoundText w textToFind
      let st := addLog { st with world := w }
        (if found then "  Found and scrolled to: " ++ textToFind
         else "  Text found but may not be visible: " ++ textToFind)
      (st, .ok [("lastFoundText", .str textToFind)])
  | .click =>
    let clickTarget := task.config.clickSelector
    if !jsTruthyStr clickTarget && !ctxTruthy ctx "lastFoundText"
        && ctxTruthy ctx "lastSearchQuery" then
      let st := addLog st "  Auto-clicking first link on search results"
      let w := ops.stopFindInPage st.world "clearSelection"
      match ops.clickFirstExternalLink w with
      | (w, .ok info) =>
        let st := addLog { st with world := w } ("  Clicked: " ++ info.url)
        (st, .ok (mergeCtx ctx [("clickedElement", .clicked info)]))
      | (w, .error e) => ({ st with world := w }, .error e)
    else
      if !jsTruthyStr clickTarget && ctxTruthy ctx "lastFoundText" then
        let found := (ctxGetStr ctx "lastFoundText").getD ""
        let st := addLog st ("  Auto-targeting element from previous Find: " ++ found)
        let w := ops.stopFindInPage st.world "activateSelection"
        match ops.clickByFoundText w found with
        | (w, .ok info) =>
          let st := addLog { st with world := w } ("  Clicked " ++ info.element)
          (st, .ok (mergeCtx ctx [("clickedElement", .clicked info)]))
        | (w, .error e) =>
          let st := addLog { st with world := w } ("  Auto-click failed: " ++ e)
          (st, .error e)
      else if jsTruthyStr clickTarget then
        match ops.clickBySelector st.world (clickTarget.getD "") with
        | (w, .ok _) => ({ st with world := w }, .ok ctx)
        | (w, .error e) => ({ st with world := w }, .error e)
      else
        (st, .error "No click target specified and no context from previous Find/Search")
  | .extractDom =>
    let ed := extractScript (ops.domSnapshot st.world)
    let st := addLog st ("Extracted " ++ toString ed.length ++ " items")
    let st := { st with status := applyStatusUpdate st.status { extractedData := some ed } }
    (st, .ok (mergeCtx ctx [("extractedData", .items ed)]))
  | .typeInput =>
    if !jsTruthyStr task.config.typeTextVal then
      (st, .error "Text to type is required")
    else
      let text := task.config.typeTextVal.getD ""
      let st := addLog st ("  Typing: " ++ text)
      match ops.typeIntoInput st.world task.config.targetField
          (ctxGetStr ctx "lastFoundText") text with
      | (w, .ok info) =>
        let st := addLog { st with world := w } ("  Typed into " ++ info.1)
        (st, .ok (mergeCtx ctx [("typedText", .str text)]))
      | (w, .error e) => ({ st with world := w }, .error e)
  | .enter =>
    let st := addLog st "  Pressing Enter key"
    match ops.pressEnter st.world with
    | (w, .ok _) =>
      let st := addLog { st with world := w } "  Enter key pressed"
      (st, .ok ctx)
    | (w, .error e) => ({ st with world := w }, .error e)
  | .scroll =>
    let amount := jsOrInt task.config.scrollAmount 500
    let st := addLog st ("  Scrolling " ++ toString amount ++ "px")
    ({ st with world := ops.scrollBy st.world amount }, .ok ctx)
  | .wait =>
    let waitTime := jsOrInt task.config.waitTime 1000
    let st := addLog st ("  Waiting " ++ toString waitTime ++ "ms")
    (st, .ok ctx)
  | .loop =>
    let st := addLog st "Loop task - execution handled at sequence level"
    (st, .ok ctx)

/-- The string interpolation of a task type (JS `${task.type}`). -/
def taskTypeName : TaskType → String
  | .search => "search"
  | .find => "find"
  | .click => "click"
  | .extractDom => "extract-dom"
  | .typeInput => "type"
  | .enter => "enter"
  | .scroll => "scroll"
  | .wait => "wait"
  | .loop => "loop"

/-- Outcome of one pass of the inner task loop. -/
inductive PassResult where
  | done
  | failedAt (idx : Nat) (msg : String)
  | stuck (idx : Nat)
deriving DecidableEq, Repr

/-- Outcome of a whole run. -/
inductive RunOutcome where
  | abortedEmpty
  | abortedNoWebview
  | completed
  | failed (pass : Nat) (idx : Nat) (msg : String)
  | stuckPaused (pass : Nat) (idx : Nat)
deriving DecidableEq, Repr

/-- Modelled from the spec: the busy-poll pause wait
`while (executionStatus.isPaused) await sleep(100)`.  The `isPaused`
flag lives in the task store (module not in the sources given) and is
toggled concurrently by the UI's pause button; per the spec it is read
afresh at each poll, so we model its observed value at poll instant `t`
as an external signal `pauseSig t`.  Returns the first poll instant at
which the flag reads false, bounded by `fuel` polls for termination. -/
def waitWhilePaused (pauseSig : Nat → Bool) : Nat → Nat → Option Nat
  | 0, t => if pauseSig t then none else some t
  | fuel + 1, t => if pauseSig t then waitWhilePaused pauseSig fuel (t + 1) else some t

/-- The inner per-pass loop of `executeSequence`
(`for (let i = 0; i < tasksToExecute.length; i++) ...`): wait while
paused, mark the task running, update the current index, log, dispatch
to `executeTask`, then on success merge the result into the context and
mark completed, or on failure mark failed, log, set
`isExecuting = false` and abort. -/
def runTasks {σ : Type} (ops : PageOps σ) (pauseSig : Nat → Bool) (fuel : Nat)
    (passIdx : Nat) :
    List Task → Nat → Ctx → EngineState σ → EngineState σ × PassResult
  | [], _, _, st => (st, .done)
  | task :: rest, i, ctx, st =>
    match waitWhilePaused pauseSig fuel st.clock with
    | none => (st, .stuck i)
    | some t =>
      let st := { st with clock := t + 1 }
      let st := { st with tasks := applyTaskUpdate st.tasks task.id { status := some .running } }
      let st := { st with status := applyStatusUpdate st.status { currentTaskIndex := some (Int.ofNat i) } }
      let st := addLog st ("Executing task " ++ toString (i + 1) ++ ": " ++ taskTypeName task.type)
      let st := { st with trace := st.trace ++ [.dispatch passIdx i task.id task.type ctx t] }
      match executeTask ops st task ctx with
      | (st, .ok result) =>
        let ctx2 := mergeCtx ctx result
        let st := { st with tasks := applyTaskUpdate st.tasks task.id { status := some .completed, result := some result } }
        let st := addLog st ("Task " ++ toString (i + 1) ++ " completed")
        let st := { st with trace := st.trace ++ [.taskDone passIdx i result] }
        runTasks ops pauseSig fuel passIdx rest (i + 1) ctx2 st
      | (st, .error msg) =>
        let st := { st with tasks := applyTaskUpdate st.tasks task.id { status := some .failed, error := some msg } }
        let st := addLog st ("Task " ++ toString (i + 1) ++ " failed: " ++ msg)
        let st := { st with status := applyStatusUpdate st.status { isExecuting := some false, isPaused := some false } }
        let st := { st with trace := st.trace ++ [.taskFailed passIdx i msg] }
        (st, .failedAt i msg)

/-- The outer loop of `executeSequence`
(`for (let loop = 0; loop < loopCount; loop++) ...`), counting down the
remaining passes: on each pass (after the first, when looping) log the
restart and update `currentLoop`; reset the context to the empty object;
run every task except a trailing loop task; and after the final pass log
the success marker and reset the status
(`{isExecuting: false, isPaused: false, currentTaskIndex: -1, currentLoop: undefined}`). -/
def runPasses {σ : Type} (ops : PageOps σ) (pauseSig : Nat → Bool) (fuel : Nat)
    (tasksSnapshot : List Task) (hasLoop : Bool) (loopTotal : Int) :
    Nat → Nat → EngineState σ → EngineState σ × RunOutcome
  | _, 0, st =>
    let st := addLog st "All tasks executed successfully!"
    let upd : StatusUpdate :=
      { isExecuting := some false, isPaused := some false,
        currentTaskIndex := some (-1), currentLoop := some none }
    let st := { st with status := applyStatusUpdate st.status upd }
    (st, .completed)
  | p, remPasses + 1, st =>
    let st :=
      if hasLoop && decide (0 < p) then
        let st := addLog st ("Loop " ++ toString (p + 1) ++ "/" ++ toString loopTotal
          ++ " - Restarting sequence")
        { st with status := applyStatusUpdate st.status { currentLoop := some (some (Int.ofNat p + 1)) } }
      else st
    let body := if hasLoop then tasksSnapshot.dropLast else tasksSnapshot
    match runTasks ops pauseSig fuel p body 0 [] st with
    | (st, .done) => runPasses ops pauseSig fuel tasksSnapshot hasLoop loopTotal (p + 1) remPasses st
    | (st, .failedAt i msg) => (st, .failed p i msg)
    | (st, .stuck i) => (st, .stuckPaused p i)

/-- Whether the last task of the sequence has type `loop`
(`tasks[tasks.length - 1]?.type === 'loop'`). -/
def hasTrailingLoop (tasks : List Task) : Bool :=
  match tasks.getLast? with
  | some t => t.type = .loop
  | none => false

/-- The effective loop count:
`hasLoop ? (lastTask.config.loopCount || 1) : 1`. -/
def effLoopCount (tasks : List Task) : Int :=
  if hasTrailingLoop tasks then
    jsOrInt ((tasks.getLast?).bind (fun t => t.config.loopCount)) 1
  else 1

/-- The engine entry point `executeSequence`:
abort with an alert if the sequence is empty or no webview is available;
detect a trailing loop task and its count; surface sequence-analysis
warnings (the analyzer lives outside the engine; its suggestion list is
taken as an input); initialize the execution status; clear the logs and
log the start; then run the passes.  `analysisWarnings` is the
`analyzeTaskSequence(tasks).suggestions` list when the analysis is not
optimal, `[]` otherwise. -/
def executeSequence {σ : Type} (ops : PageOps σ) (pauseSig : Nat → Bool) (fuel : Nat)
    (webviewAvailable : Bool) (analysisWarnings : List String)
    (st : EngineState σ) : EngineState σ × RunOutcome :=
  if st.tasks.isEmpty then
    ({ st with alerts := st.alerts ++ ["No tasks to execute"] }, .abortedEmpty)
  else if !webviewAvailable then
    ({ st with alerts := st.alerts ++ ["Webview not available"] }, .abortedNoWebview)
  else
    let tasksSnapshot := st.tasks
    let hasLoop := hasTrailingLoop tasksSnapshot
    let lc := effLoopCount tasksSnapshot
    let st :=
      if !analysisWarnings.isEmpty then
        { st with logs := st.logs ++ ["Sequence analysis warnings:"]
            ++ analysisWarnings.map (fun s => "  - " ++ s) }
      else st
    let upd : StatusUpdate :=
      { isExecuting := some true, isPaused := some false, currentTaskIndex := some 0,
        totalTasks := some tasksSnapshot.length,
        totalLoops := some (if hasLoop then some lc else none) }
    let st := { st with status := applyStatusUpdate st.status upd }
    let st := { st with logs := [] }
    let st := addLog st "Starting execution..."
    let st := if hasLoop then addLog st ("Sequence will loop " ++ toString lc ++ " times") else st
    runPasses ops pauseSig fuel tasksSnapshot hasLoop lc 0 lc.toNat st

/-- A fresh engine state over an initial world: the tasks as composed in
the store, an idle status record, empty logs/alerts, and an empty ghost
trace. -/
def initState {σ : Type} (tasks : List Task) (w : σ) : EngineState σ :=
  { tasks := tasks, status := {}, logs := [], alerts := [], trace := [], clock := 0, world := w }

/-- Projection of the ghost trace to dispatch events:
`(pass, index, task type)` triples in dispatch order. -/
def dispatches (tr : List Event) : List (Nat × Nat × TaskType) :=
  tr.filterMap (fun e =>
    match e with
    | .dispatch p i _ tt _ _ => some (p, i, tt)
    | _ => none)

/-- The pass index of a trace event. -/
def Event.passOf : Event → Nat
  | .dispatch p _ _ _ _ _ => p
  | .taskDone p _ _ => p
  | .taskFailed p _ _ => p

/-- The task index of a trace event. -/
def Event.idxOf : Event → Nat
  | .dispatch _ i _ _ _ _ => i
  | .taskDone _ i _ => i
  | .taskFailed _ i _ => i

/-- Expected dispatch projection of one pass `p` over the given tasks,
starting at index `i`. -/
def dispatchSpec (p : Nat) : Nat → List Task → List (Nat × Nat × TaskType)
  | _, [] => []
  | i, t :: rest => (p, i, t.type) :: dispatchSpec p (i + 1) rest

/-- Expected dispatch projection of `n` consecutive passes over `body`,
starting at pass `p`. -/
def passesSpec (body : List Task) : Nat → Nat → List (Nat × Nat × TaskType)
  | _, 0 => []
  | p, n + 1 => dispatchSpec p 0 body ++ passesSpec body (p + 1) n

/-- Status of the task with the given id in the store's list. -/
def statusById (tasks : List Task) (tid : String) : Option TaskStatus :=
  (tasks.find? (fun t => t.id = tid)).map Task.status

/-- Error message of the task with the given id in the store's list. -/
def errById (tasks : List Task) (tid : String) : Option (Option String) :=
  (tasks.find? (fun t => t.id = tid)).map Task.error

/-- Results of the tasks of pass `p` at indices `< i`, in trace order. -/
def passResultsBefore (tr : List Event) (p i : Nat) : List Ctx :=
  tr.filterMap (fun e =>
    match e with
    | .taskDone q j r => if q = p ∧ j < i then some r else none
    | _ => none)

/-- The engine state right after `executeSequence`'s initialization
(status set, logs cleared and the start lines written), from which the
pass loop runs. -/
def startState (tasks : List Task) (w : σ) : EngineState σ :=
  { tasks := tasks
    status :=
      { isExecuting := true, isPaused := false, currentTaskIndex := 0,
        totalTasks := tasks.length, currentLoop := none,
        totalLoops := if hasTrailingLoop tasks then some (effLoopCount tasks) else none,
        extractedData := none }
    logs :=
      if hasTrailingLoop tasks then
        ["Starting execution...",
         "Sequence will loop " ++ toString (effLoopCount tasks) ++ " times"]
      else ["Starting execution..."]
    alerts := []
    trace := []
    clock := 0
    world := w }

/-! ## Concrete instances used to exercise the engine -/

/-- A page-ops oracle over a unit-like world where every operation
succeeds (used to exercise the engine on concrete sequences). -/
def constOps : PageOps Nat :=
  { encodeURIComponent := id
    loadURL := fun n _ => n
    visualOutline := fun n => n
    stopFindInPage := fun n _ => n
    clearFindHighlights := fun n => n
    findInPage := fun n _ => n
    scrollToFoundText := fun n _ => (n, true)
    clickFirstExternalLink := fun n => (n, .error "No clickable links found")
    clickByFoundText := fun n _ => (n, .ok {})
    clickBySelector := fun n _ => (n, .ok ())
    domSnapshot := fun _ => { links := [], headings := [] }
    typeIntoInput := fun n _ _ _ => (n, .ok ("field", "INPUT"))
    pressEnter := fun n => (n, .ok none)
    scrollBy := fun n _ => n }

/-- A page-ops oracle whose world counts Enter presses and whose page
rejects the second one — a page whose state changed between loop
iterations. -/
def flakyOps : PageOps Nat :=
  { constOps with
    pressEnter := fun n => (n + 1, if n = 1 then .error "boom" else .ok none) }

/-- The always-unpaused schedule. -/
def noPause : Nat → Bool := fun _ => false

/-- Helper to build a fresh task descriptor as the drop handler does
(`status: 'pending'`, empty result/error). -/
def mkTask (i : String) (tt : TaskType) (cfg : TaskConfig) : Task :=
  { id := i, type := tt, config := cfg }

section Lemmas

variable {σ : Type}

theorem executeTask_frame {ops : PageOps σ} {st st2 : EngineState σ} {task : Task} {ctx : Ctx}
    {r : Except String Ctx} (he : executeTask ops st task ctx = (st2, r)) :
    st2.trace = st.trace ∧
    st2.tasks = st.tasks ∧
    st2.alerts = st.alerts ∧
    st2.clock = st.clock ∧
    st2.status.isExecuting = st.status.isExecuting ∧
    st2.status.isPaused = st.status.isPaused ∧
    st2.status.currentTaskIndex = st.status.currentTaskIndex ∧
    st2.status.totalTasks = st.status.totalTasks ∧
    st2.status.currentLoop = st.status.currentLoop ∧
    st2.status.totalLoops = st.status.totalLoops := by
  have h2 : st2 = (executeTask ops st task ctx).1 := by rw [he]
  subst h2
  cases task with
  | mk id tt cfg stat res err =>
    cases tt <;>
      (simp only [executeTask, addLog, applyStatusUpdate]; repeat' split) <;>
      simp_all [addLog, applyStatusUpdate]


@[simp] theorem dispatches_append (a b : List Event) :
    dispatches (a ++ b) = dispatches a ++ dispatches b := by
  simp [dispatches]

@[simp] theorem dispatches_nil : dispatches [] = [] := rfl

@[simp] theorem dispatches_cons_dispatch (p i tid tt ctx t tr) :
    dispatches (Event.dispatch p i tid tt ctx t :: tr) = (p, i, tt) :: dispatches tr := by
  simp [dispatches]

@[simp] theorem dispatches_cons_done (p i r tr) :
    dispatches (Event.taskDone p i r :: tr) = dispatches tr := by
  simp [dispatches]

@[simp] theorem dispatches_cons_failed (p i m tr) :
    dispatches (Event.taskFailed p i m :: tr) = dispatches tr := by
  simp [dispatches]

theorem runTasks_done_trace (ops : PageOps σ) (pauseSig : Nat → Bool) (fuel p : Nat) :
    ∀ (rem : List Task) (i : Nat) (ctx : Ctx) (st st' : EngineState σ),
    runTasks ops pauseSig fuel p rem i ctx st = (st', .done) →
    dispatches st'.trace = dispatches st.trace ++ dispatchSpec p i rem := by
  intro rem
  induction rem with
  | nil =>
    intro i ctx st st' h
    simp only [runTasks, Prod.mk.injEq] at h
    simp [h.1, dispatchSpec]
  | cons task rest ih =>
    intro i ctx st st' h
    rw [runTasks] at h
    split at h
    · exact absurd h (by simp)
    · rename_i t hw
      simp only [addLog] at h
      split at h
      · rename_i st2 result he
        have hfr := executeTask_frame he
        rw [ih _ _ _ _ h]
        simp [hfr.1, dispatchSpec]
      · exact absurd h (by simp)

@[simp] theorem applyTaskUpdateFn_id (tid : String) (u : TaskUpdate) (t : Task) :
    (applyTaskUpdateFn tid u t).id = t.id := by
  unfold applyTaskUpdateFn
  split <;> rfl

theorem find_applyTaskUpdate (tasks : List Task) (tid tid' : String) (u : TaskUpdate) :
    (applyTaskUpdate tasks tid u).find? (fun t => t.id = tid')
      = (tasks.find? (fun t => t.id = tid')).map (applyTaskUpdateFn tid u) := by
  unfold applyTaskUpdate
  rw [List.find?_map]
  have hpred : ((fun t => decide (t.id = tid')) ∘ applyTaskUpdateFn tid u)
      = (fun t : Task => decide (t.id = tid')) := by
    funext t
    simp [Function.comp, applyTaskUpdateFn_id]
  rw [hpred]

theorem applyTaskUpdate_map_id (tasks : List Task) (tid : String) (u : TaskUpdate) :
    (applyTaskUpdate tasks tid u).map Task.id = tasks.map Task.id := by
  unfold applyTaskUpdate
  rw [List.map_map]
  congr 1
  funext t
  simp [Function.comp, applyTaskUpdateFn_id]

theorem find_applyTaskUpdate_ne (tasks : List Task) (tid tid' : String) (u : TaskUpdate)
    (h : tid' ≠ tid) :
    (applyTaskUpdate tasks tid u).find? (fun t => t.id = tid')
      = tasks.find? (fun t => t.id = tid') := by
  rw [find_applyTaskUpdate]
  cases hf : tasks.find? (fun t => t.id = tid') with
  | none => rfl
  | some t =>
    have ht : t.id = tid' := by simpa using List.find?_some hf
    simp [applyTaskUpdateFn, ht, h]

theorem find_applyTaskUpdate_isSome (tasks : List Task) (tid tid' : String) (u : TaskUpdate) :
    ((applyTaskUpdate tasks tid u).find? (fun t => t.id = tid')).isSome
      = (tasks.find? (fun t => t.id = tid')).isSome := by
  rw [find_applyTaskUpdate]
  cases tasks.find? (fun t => t.id = tid') <;> rfl

theorem statusById_applyTaskUpdate_self (tasks : List Task) (tid : String) (u : TaskUpdate)
    (s : TaskStatus) (h : u.status = some s)
    (hp : (tasks.find? (fun t => t.id = tid)).isSome = true) :
    statusById (applyTaskUpdate tasks tid u) tid = some s := by
  unfold statusById
  rw [find_applyTaskUpdate]
  cases hf : tasks.find? (fun t => t.id = tid) with
  | none => rw [hf] at hp; simp at hp
  | some t =>
    have ht : t.id = tid := by simpa using List.find?_some hf
    simp [applyTaskUpdateFn, ht, h]

theorem errById_applyTaskUpdate_self (tasks : List Task) (tid : String) (u : TaskUpdate)
    (e : String) (h : u.error = some e)
    (hp : (tasks.find? (fun t => t.id = tid)).isSome = true) :
    errById (applyTaskUpdate tasks tid u) tid = some (some e) := by
  unfold errById
  rw [find_applyTaskUpdate]
  cases hf : tasks.find? (fun t => t.id = tid) with
  | none => rw [hf] at hp; simp at hp
  | some t =>
    have ht : t.id = tid := by simpa using List.find?_some hf
    simp [applyTaskUpdateFn, ht, h]

theorem statusById_of_get (tasks : List Task) (n : Nat) (t : Task)
    (hnd : (tasks.map Task.id).Nodup) (hget : tasks[n]? = some t) :
    statusById tasks t.id = some t.status := by
  induction tasks generalizing n with
  | nil => simp at hget
  | cons hd rest ih =>
    cases n with
    | zero =>
      simp only [List.getElem?_cons_zero, Option.some.injEq] at hget
      subst hget
      simp [statusById, List.find?_cons]
    | succ m =>
      simp only [List.getElem?_cons_succ] at hget
      simp only [List.map_cons, List.nodup_cons] at hnd
      have hmem : t ∈ rest := by
        exact List.getElem?_mem hget
      have hne : hd.id ≠ t.id := by
        intro hcontra
        exact hnd.1 (hcontra ▸ List.mem_map_of_mem Task.id hmem)
      unfold statusById
      rw [List.find?_cons]
      split
      · rename_i hb
        exact absurd (by simpa using hb) hne
      · exact ih m hnd.2 hget

theorem runTasks_frame (ops : PageOps σ) (pauseSig : Nat → Bool) (fuel p : Nat) :
    ∀ (rem : List Task) (i : Nat) (ctx : Ctx) (st st' : EngineState σ) (r : PassResult),
    runTasks ops pauseSig fuel p rem i ctx st = (st', r) →
    st'.alerts = st.alerts ∧
    st'.status.totalLoops = st.status.totalLoops ∧
    st'.status.totalTasks = st.status.totalTasks ∧
    st'.tasks.map Task.id = st.tasks.map Task.id ∧
    (∃ tr, st'.trace = st.trace ++ tr) := by
  intro rem
  induction rem with
  | nil =>
    intro i ctx st st' r h
    simp only [runTasks, Prod.mk.injEq] at h
    refine ⟨?_, ?_, ?_, ?_, ⟨[], ?_⟩⟩ <;> simp [h.1]
  | cons task rest ih =>
    intro i ctx st st' r h
    rw [runTasks] at h
    split at h
    · simp only [Prod.mk.injEq] at h
      refine ⟨?_, ?_, ?_, ?_, ⟨[], ?_⟩⟩ <;> simp [h.1]
    · rename_i t hw
      simp only [addLog] at h
      split at h
      · rename_i st2 result he
        have hfr := executeTask_frame he
        obtain ⟨ha, htl, htt, hmid, htr⟩ := ih _ _ _ _ _ h
        refine ⟨?_, ?_, ?_, ?_, ?_⟩
        · rw [ha, hfr.2.2.1]
        · rw [htl]
          simp [hfr.2.2.2.2.2.2.2.2.2, applyStatusUpdate]
        · rw [htt]
          simp [hfr.2.2.2.2.2.2.2.1, applyStatusUpdate]
        · rw [hmid]
          simp [applyTaskUpdate_map_id, hfr.2.1]
        · obtain ⟨tr, htr⟩ := htr
          refine ⟨Event.dispatch p i task.id task.type ctx t :: Event.taskDone p i result :: tr, ?_⟩
          rw [htr]
          show st2.trace ++ [Event.taskDone p i result] ++ tr = _
          rw [hfr.1]
          simp
      · rename_i st2 msg he
        have hfr := executeTask_frame he
        simp only [Prod.mk.injEq] at h
        obtain ⟨hst, _⟩ := h
        subst hst
        refine ⟨?_, ?_, ?_, ?_, ?_⟩
        · simp [hfr.2.2.1]
        · simp [applyStatusUpdate, hfr.2.2.2.2.2.2.2.2.2]
        · simp [applyStatusUpdate, hfr.2.2.2.2.2.2.2.1]
        · simp [applyTaskUpdate_map_id, hfr.2.1]
        · refine ⟨Event.dispatch p i task.id task.type ctx t :: [Event.taskFailed p i msg], ?_⟩
          show st2.trace ++ [Event.taskFailed p i msg] = _
          rw [hfr.1]
          simp

theorem runTasks_find_frame (ops : PageOps σ) (pauseSig : Nat → Bool) (fuel p : Nat) :
    ∀ (rem : List Task) (i : Nat) (ctx : Ctx) (st st' : EngineState σ) (r : PassResult)
      (tid : String),
    runTasks ops pauseSig fuel p rem i ctx st = (st', r) →
    tid ∉ rem.map Task.id →
    st'.tasks.find? (fun t => t.id = tid) = st.tasks.find? (fun t => t.id = tid) := by
  intro rem
  induction rem with
  | nil =>
    intro i ctx st st' r tid h _
    simp only [runTasks, Prod.mk.injEq] at h
    rw [← h.1]
  | cons task rest ih =>
    intro i ctx st st' r tid h hmem
    simp only [List.map_cons, List.mem_cons, not_or] at hmem
    obtain ⟨hne, hrest⟩ := hmem
    rw [runTasks] at h
    split at h
    · simp only [Prod.mk.injEq] at h
      rw [← h.1]
    · rename_i t hw
      simp only [addLog] at h
      split at h
      · rename_i st2 result he
        have hfr := executeTask_frame he
        have hrec := ih _ _ _ _ _ _ h (by simpa using hrest)
        rw [hrec]
        show (applyTaskUpdate st2.tasks task.id _).find? _ = _
        rw [find_applyTaskUpdate_ne _ _ _ _ hne, hfr.2.1]
        show (applyTaskUpdate st.tasks task.id _).find? _ = _
        rw [find_applyTaskUpdate_ne _ _ _ _ hne]
      · rename_i st2 msg he
        have hfr := executeTask_frame he
        simp only [Prod.mk.injEq] at h
        rw [← h.1]
        show (applyTaskUpdate st2.tasks task.id _).find? _ = _
        rw [find_applyTaskUpdate_ne _ _ _ _ hne, hfr.2.1]
        show (applyTaskUpdate st.tasks task.id _).find? _ = _
        rw [find_applyTaskUpdate_ne _ _ _ _ hne]

theorem runTasks_find_isSome (ops : PageOps σ) (pauseSig : Nat → Bool) (fuel p : Nat) :
    ∀ (rem : List Task) (i : Nat) (ctx : Ctx) (st st' : EngineState σ) (r : PassResult)
      (tid : String),
    runTasks ops pauseSig fuel p rem i ctx st = (st', r) →
    (st'.tasks.find? (fun t => t.id = tid)).isSome
      = (st.tasks.find? (fun t => t.id = tid)).isSome := by
  intro rem
  induction rem with
  | nil =>
    intro i ctx st st' r tid h
    simp only [runTasks, Prod.mk.injEq] at h
    rw [← h.1]
  | cons task rest ih =>
    intro i ctx st st' r tid h
    rw [runTasks] at h
    split at h
    · simp only [Prod.mk.injEq] at h
      rw [← h.1]
    · rename_i t hw
      simp only [addLog] at h
      split at h
      · rename_i st2 result he
        have hfr := executeTask_frame he
        have hrec := ih _ _ _ _ _ tid h
        rw [hrec]
        show ((applyTaskUpdate st2.tasks task.id _).find? _).isSome = _
        rw [find_applyTaskUpdate_isSome, hfr.2.1]
        show ((applyTaskUpdate st.tasks task.id _).find? _).isSome = _
        rw [find_applyTaskUpdate_isSome]
      · rename_i st2 msg he
        have hfr := executeTask_frame he
        simp only [Prod.mk.injEq] at h
        rw [← h.1]
        show ((applyTaskUpdate st2.tasks task.id _).find? _).isSome = _
        rw [find_applyTaskUpdate_isSome, hfr.2.1]
        show ((applyTaskUpdate st.tasks task.id _).find? _).isSome = _
        rw [find_applyTaskUpdate_isSome]

theorem statusById_eq_of_find (tasks tasks' : List Task) (tid : String)
    (h : tasks.find? (fun t => t.id = tid) = tasks'.find? (fun t => t.id = tid)) :
    statusById tasks tid = statusById tasks' tid := by
  unfold statusById
  rw [h]

theorem runTasks_failedAt (ops : PageOps σ) (pauseSig : Nat → Bool) (fuel p : Nat) :
    ∀ (rem : List Task) (i : Nat) (ctx : Ctx) (st st' : EngineState σ) (k : Nat) (msg : String),
    runTasks ops pauseSig fuel p rem i ctx st = (st', .failedAt k msg) →
    ∃ pre fail post, rem = pre ++ fail :: post ∧ k = i + pre.length ∧
      st'.status.isExecuting = false ∧
      st'.status.isPaused = false ∧
      st'.status.currentTaskIndex = Int.ofNat k ∧
      ("Task " ++ toString (k + 1) ++ " failed: " ++ msg) ∈ st'.logs ∧
      dispatches st'.trace = dispatches st.trace ++ dispatchSpec p i (pre ++ [fail]) ∧
      ((rem.map Task.id).Nodup →
        (∀ t ∈ rem, (st.tasks.find? (fun x => x.id = t.id)).isSome = true) →
        (∀ t ∈ pre, statusById st'.tasks t.id = some .completed) ∧
        statusById st'.tasks fail.id = some .failed ∧
        errById st'.tasks fail.id = some (some msg) ∧
        (∀ t ∈ post, st'.tasks.find? (fun x => x.id = t.id)
          = st.tasks.find? (fun x => x.id = t.id))) := by
  intro rem
  induction rem with
  | nil =>
    intro i ctx st st' k msg h
    simp [runTasks] at h
  | cons task rest ih =>
    intro i ctx st st' k msg h
    rw [runTasks] at h
    split at h
    · simp at h
    · rename_i t hw
      simp only [addLog] at h
      split at h
      · -- executeTask succeeded on the head: recurse
        rename_i st2 result he
        have hfr := executeTask_frame he
        obtain ⟨pre1, fail1, post1, hsplit, hk, hie, hip, hci, hlog, hdisp, hcond⟩ :=
          ih _ _ _ _ _ _ h
        refine ⟨task :: pre1, fail1, post1, by simp [hsplit], by simp [hk]; omega,
          hie, hip, hci, hlog, ?_, ?_⟩
        · rw [hdisp]
          show dispatches (st2.trace ++ [Event.taskDone p i result]) ++ _ = _
          rw [hfr.1]
          simp [dispatchSpec]
        · intro hnd hpres
          simp only [List.map_cons, List.nodup_cons] at hnd
          obtain ⟨hnotin, hndrest⟩ := hnd
          -- presence of every rest id in the updated store
          have hpres2 : ∀ t ∈ rest,
              ((applyTaskUpdate st2.tasks task.id
                { status := some TaskStatus.completed, result := some result, error := none
                  : TaskUpdate }).find? (fun x => x.id = t.id)).isSome = true := by
            intro t ht
            rw [find_applyTaskUpdate_isSome, hfr.2.1]
            show ((applyTaskUpdate st.tasks task.id _).find? _).isSome = true
            rw [find_applyTaskUpdate_isSome]
            exact hpres t (List.mem_cons_of_mem _ ht)
          obtain ⟨hpre, hfail, herr, hpost⟩ := hcond hndrest (by
            intro t ht
            exact hpres2 t ht)
          have hsub : ∀ t ∈ rest, t.id ≠ task.id := by
            intro t ht hcontra
            exact hnotin (hcontra ▸ List.mem_map_of_mem Task.id ht)
          refine ⟨?_, hfail, herr, ?_⟩
          · intro t ht
            rcases List.mem_cons.mp ht with hh | hh
            · -- the head task: completed in the recursion's start state, untouched after
              subst hh
              have hframe := runTasks_find_frame ops pauseSig fuel p rest _ _ _ _ _ t.id h
                (by
                  intro hcontra
                  simp only [List.mem_map] at hcontra
                  obtain ⟨x, hx, hxid⟩ := hcontra
                  exact hsub x hx hxid)
              have : statusById st'.tasks t.id
                  = statusById (applyTaskUpdate st2.tasks t.id
                    { status := some TaskStatus.completed, result := some result, error := none
                      : TaskUpdate }) t.id :=
                statusById_eq_of_find _ _ _ hframe
              rw [this]
              apply statusById_applyTaskUpdate_self _ _ _ _ rfl
              rw [hfr.2.1]
              show ((applyTaskUpdate st.tasks t.id _).find? _).isSome = true
              rw [find_applyTaskUpdate_isSome]
              exact hpres t (List.mem_cons_self _ _)
            · exact hpre t hh
          · intro t ht
            have ht' : t ∈ rest := by rw [hsplit]; exact List.mem_append_right _ (List.mem_cons_of_mem _ ht)
            rw [hpost t ht]
            show (applyTaskUpdate st2.tasks task.id _).find? _ = _
            rw [find_applyTaskUpdate_ne _ _ _ _ (hsub t ht'), hfr.2.1]
            show (applyTaskUpdate st.tasks task.id _).find? _ = _
            rw [find_applyTaskUpdate_ne _ _ _ _ (hsub t ht')]
      · -- executeTask failed on the head
        rename_i st2 msg0 he
        have hfr := executeTask_frame he
        simp only [Prod.mk.injEq, PassResult.failedAt.injEq] at h
        obtain ⟨hst, hik, hmsg⟩ := h
        subst hik
        subst hmsg
        refine ⟨[], task, rest, rfl, by simp, ?_, ?_, ?_, ?_, ?_, ?_⟩
        · rw [← hst]; simp [applyStatusUpdate]
        · rw [← hst]; simp [applyStatusUpdate]
        · rw [← hst]
          show (applyStatusUpdate st2.status _).currentTaskIndex = _
          have h2 := hfr.2.2.2.2.2.2.1
          simp only [applyStatusUpdate, Option.getD_none] at h2 ⊢
          rw [h2]
          simp [applyStatusUpdate]
        · rw [← hst]
          show _ ∈ st2.logs ++ _
          exact List.mem_append_right _ (List.mem_singleton.mpr rfl)
        · rw [← hst]
          show dispatches (st2.trace ++ [Event.taskFailed p i msg0]) = _
          rw [hfr.1]
          simp [dispatchSpec]
        · intro hnd hpres
          simp only [List.map_cons, List.nodup_cons] at hnd
          obtain ⟨hnotin, hndrest⟩ := hnd
          have hsub : ∀ t ∈ rest, t.id ≠ task.id := by
            intro t ht hcontra
            exact hnotin (hcontra ▸ List.mem_map_of_mem Task.id ht)
          have hpresTask : ((st2.tasks).find? (fun x => x.id = task.id)).isSome = true := by
            rw [hfr.2.1]
            show ((applyTaskUpdate st.tasks task.id _).find? _).isSome = true
            rw [find_applyTaskUpdate_isSome]
            exact hpres task (List.mem_cons_self _ _)
          refine ⟨by intro t ht; simp at ht, ?_, ?_, ?_⟩
          · rw [← hst]
            exact statusById_applyTaskUpdate_self _ _ _ _ rfl hpresTask
          · rw [← hst]
            exact errById_applyTaskUpdate_self _ _ _ _ rfl hpresTask
          · intro t ht
            rw [← hst]
            show (applyTaskUpdate st2.tasks task.id _).find? _ = _
            rw [find_applyTaskUpdate_ne _ _ _ _ (hsub t ht), hfr.2.1]
            show (applyTaskUpdate st.tasks task.id _).find? _ = _
            rw [find_applyTaskUpdate_ne _ _ _ _ (hsub t ht)]

theorem waitWhilePaused_some (pauseSig : Nat → Bool) :
    ∀ (fuel t t' : Nat), waitWhilePaused pauseSig fuel t = some t' →
    pauseSig t' = false ∧ t ≤ t' := by
  intro fuel
  induction fuel with
  | zero =>
    intro t t' h
    simp only [waitWhilePaused] at h
    split at h
    · simp at h
    · rename_i hp
      simp only [Option.some.injEq] at h
      subst h
      exact ⟨by simpa using hp, le_refl _⟩
  | succ f ih =>
    intro t t' h
    simp only [waitWhilePaused] at h
    split at h
    · obtain ⟨h1, h2⟩ := ih _ _ h
      exact ⟨h1, by omega⟩
    · rename_i hp
      simp only [Option.some.injEq] at h
      subst h
      exact ⟨by simpa using hp, le_refl _⟩

theorem runTasks_pause (ops : PageOps σ) (pauseSig : Nat → Bool) (fuel p : Nat) :
    ∀ (rem : List Task) (i : Nat) (ctx : Ctx) (st st' : EngineState σ) (r : PassResult),
    runTasks ops pauseSig fuel p rem i ctx st = (st', r) →
    (∀ q j tid tt c t, Event.dispatch q j tid tt c t ∈ st.trace → pauseSig t = false) →
    (∀ q j tid tt c t, Event.dispatch q j tid tt c t ∈ st'.trace → pauseSig t = false) := by
  intro rem
  induction rem with
  | nil =>
    intro i ctx st st' r h hsafe
    simp only [runTasks, Prod.mk.injEq] at h
    rw [← h.1]
    exact hsafe
  | cons task rest ih =>
    intro i ctx st st' r h hsafe
    rw [runTasks] at h
    split at h
    · simp only [Prod.mk.injEq] at h
      rw [← h.1]
      exact hsafe
    · rename_i t hw
      have hpt := waitWhilePaused_some pauseSig _ _ _ hw
      simp only [addLog] at h
      split at h
      · rename_i st2 result he
        have hfr := executeTask_frame he
        refine ih _ _ _ _ _ h ?_
        intro q j tid tt c t0 hmem
        have hmem2 : Event.dispatch q j tid tt c t0 ∈ st2.trace ++ [Event.taskDone p i result] := hmem
        rw [hfr.1] at hmem2
        have hmem3 : Event.dispatch q j tid tt c t0
            ∈ (st.trace ++ [Event.dispatch p i task.id task.type ctx t])
              ++ [Event.taskDone p i result] := hmem2
        simp only [List.mem_append, List.mem_singleton] at hmem3
        rcases hmem3 with (hmem3 | hmem3) | hmem3
        · exact hsafe _ _ _ _ _ _ hmem3
        · simp only [Event.dispatch.injEq] at hmem3
          rw [hmem3.2.2.2.2.2]
          exact hpt.1
        · exact absurd hmem3 (by simp)
      · rename_i st2 msg he
        have hfr := executeTask_frame he
        simp only [Prod.mk.injEq] at h
        rw [← h.1]
        intro q j tid tt c t0 hmem
        have hmem2 : Event.dispatch q j tid tt c t0
            ∈ st2.trace ++ [Event.taskFailed p i msg] := hmem
        rw [hfr.1] at hmem2
        have hmem3 : Event.dispatch q j tid tt c t0
            ∈ (st.trace ++ [Event.dispatch p i task.id task.type ctx t])
              ++ [Event.taskFailed p i msg] := hmem2
        simp only [List.mem_append, List.mem_singleton] at hmem3
        rcases hmem3 with (hmem3 | hmem3) | hmem3
        · exact hsafe _ _ _ _ _ _ hmem3
        · simp only [Event.dispatch.injEq] at hmem3
          rw [hmem3.2.2.2.2.2]
          exact hpt.1
        · exact absurd hmem3 (by simp)

theorem runTasks_bound (ops : PageOps σ) (pauseSig : Nat → Bool) (fuel p : Nat) :
    ∀ (rem : List Task) (i : Nat) (ctx : Ctx) (st st' : EngineState σ) (r : PassResult),
    runTasks ops pauseSig fuel p rem i ctx st = (st', r) →
    ∀ x ∈ dispatches st'.trace,
      x ∈ dispatches st.trace ∨ (x.1 = p ∧ i ≤ x.2.1 ∧ x.2.1 < i + rem.length) := by
  intro rem
  induction rem with
  | nil =>
    intro i ctx st st' r h x hx
    simp only [runTasks, Prod.mk.injEq] at h
    rw [← h.1] at hx
    exact Or.inl hx
  | cons task rest ih =>
    intro i ctx st st' r h x hx
    rw [runTasks] at h
    split at h
    · simp only [Prod.mk.injEq] at h
      rw [← h.1] at hx
      exact Or.inl hx
    · rename_i t hw
      simp only [addLog] at h
      split at h
      · rename_i st2 result he
        have hfr := executeTask_frame he
        rcases ih _ _ _ _ _ h x hx with hin | hin
        · have hin2 : x ∈ dispatches (st2.trace ++ [Event.taskDone p i result]) := hin
          rw [hfr.1] at hin2
          have hin3 : x ∈ dispatches
              ((st.trace ++ [Event.dispatch p i task.id task.type ctx t])
                ++ [Event.taskDone p i result]) := hin2
          simp only [dispatches_append, dispatches_cons_dispatch, dispatches_cons_done,
            dispatches_nil, List.append_nil, List.mem_append, List.mem_singleton] at hin3
          rcases hin3 with hin3 | hin3
          · exact Or.inl hin3
          · subst hin3
            right
            exact ⟨rfl, le_refl _, by simp⟩
        · right
          obtain ⟨h1, h2, h3⟩ := hin
          exact ⟨h1, by omega, by simp; omega⟩
      · rename_i st2 msg he
        have hfr := executeTask_frame he
        simp only [Prod.mk.injEq] at h
        rw [← h.1] at hx
        have hx2 : x ∈ dispatches (st2.trace ++ [Event.taskFailed p i msg]) := hx
        rw [hfr.1] at hx2
        have hx3 : x ∈ dispatches
            ((st.trace ++ [Event.dispatch p i task.id task.type ctx t])
              ++ [Event.taskFailed p i msg]) := hx2
        simp only [dispatches_append, dispatches_cons_dispatch, dispatches_cons_failed,
          dispatches_nil, List.append_nil, List.mem_append, List.mem_singleton] at hx3
        rcases hx3 with hx3 | hx3
        · exact Or.inl hx3
        · subst hx3
          right
          exact ⟨rfl, le_refl _, by simp⟩

@[simp] theorem passResultsBefore_nil (p i : Nat) : passResultsBefore [] p i = [] := rfl

@[simp] theorem passResultsBefore_append (a b : List Event) (p i : Nat) :
    passResultsBefore (a ++ b) p i = passResultsBefore a p i ++ passResultsBefore b p i := by
  simp [passResultsBefore]

@[simp] theorem passResultsBefore_cons_dispatch (q j tid tt c t tr p i) :
    passResultsBefore (Event.dispatch q j tid tt c t :: tr) p i = passResultsBefore tr p i := by
  simp [passResultsBefore]

@[simp] theorem passResultsBefore_cons_failed (q j m tr p i) :
    passResultsBefore (Event.taskFailed q j m :: tr) p i = passResultsBefore tr p i := by
  simp [passResultsBefore]

theorem passResultsBefore_cons_done (q j r tr p i) :
    passResultsBefore (Event.taskDone q j r :: tr) p i
      = (if q = p ∧ j < i then [r] else []) ++ passResultsBefore tr p i := by
  by_cases hc : q = p ∧ j < i <;> simp [passResultsBefore, hc]

theorem passResultsBefore_succ (tr : List Event) (p i : Nat)
    (h : ∀ e ∈ tr, e.passOf < p ∨ (e.passOf = p ∧ e.idxOf < i)) :
    passResultsBefore tr p (i + 1) = passResultsBefore tr p i := by
  unfold passResultsBefore
  apply List.filterMap_congr
  intro e he
  cases e with
  | dispatch => rfl
  | taskFailed => rfl
  | taskDone q j r =>
    rcases h _ he with hlt | ⟨heq, hidx⟩
    · simp only [Event.passOf] at hlt
      have : ¬(q = p) := by omega
      simp [this]
    · simp only [Event.passOf, Event.idxOf] at heq hidx
      subst heq
      simp only [true_and]
      have h1 : j < i + 1 := by omega
      simp [h1, hidx]

theorem runTasks_ctx (ops : PageOps σ) (pauseSig : Nat → Bool) (fuel p : Nat) :
    ∀ (rem : List Task) (i : Nat) (ctx : Ctx) (st st' : EngineState σ) (r : PassResult),
    runTasks ops pauseSig fuel p rem i ctx st = (st', r) →
    (∀ e ∈ st.trace, e.passOf < p ∨ (e.passOf = p ∧ e.idxOf < i)) →
    ctx = (passResultsBefore st.trace p i).foldl mergeCtx [] →
    (∀ q i' tid tt c t, Event.dispatch q i' tid tt c t ∈ st.trace →
      c = (passResultsBefore st.trace q i').foldl mergeCtx []) →
    (∀ q i' tid tt c t, Event.dispatch q i' tid tt c t ∈ st'.trace →
      c = (passResultsBefore st'.trace q i').foldl mergeCtx []) ∧
    (∀ e ∈ st'.trace, e.passOf ≤ p) := by
  intro rem
  induction rem with
  | nil =>
    intro i ctx st st' r h hb hctx hold
    simp only [runTasks, Prod.mk.injEq] at h
    rw [← h.1]
    refine ⟨hold, ?_⟩
    intro e he
    rcases hb e he with h1 | h1
    · omega
    · omega
  | cons task rest ih =>
    intro i ctx st st' r h hb hctx hold
    rw [runTasks] at h
    split at h
    · simp only [Prod.mk.injEq] at h
      rw [← h.1]
      refine ⟨hold, ?_⟩
      intro e he
      rcases hb e he with h1 | h1 <;> omega
    · rename_i t hw
      simp only [addLog] at h
      split at h
      · rename_i st2 result he
        have hfr := executeTask_frame he
        -- the recursion's start trace
        have htr2 : st2.trace = st.trace ++ [Event.dispatch p i task.id task.type ctx t] := hfr.1
        refine ih _ _ _ _ _ h ?_ ?_ ?_
        · -- bound hypothesis for the extended trace
          intro e hmem
          have hmem2 : e ∈ (st.trace ++ [Event.dispatch p i task.id task.type ctx t])
              ++ [Event.taskDone p i result] := by
            rw [← htr2]; exact hmem
          simp only [List.mem_append, List.mem_singleton] at hmem2
          rcases hmem2 with (hmem2 | hmem2) | hmem2
          · rcases hb e hmem2 with h1 | h1
            · exact Or.inl h1
            · exact Or.inr ⟨h1.1, by omega⟩
          · subst hmem2
            exact Or.inr ⟨rfl, by simp [Event.idxOf]⟩
          · subst hmem2
            exact Or.inr ⟨rfl, by simp [Event.idxOf]⟩
        · -- context fold hypothesis for i + 1
          have hstep : passResultsBefore
              ((st.trace ++ [Event.dispatch p i task.id task.type ctx t])
                ++ [Event.taskDone p i result]) p (i + 1)
              = passResultsBefore st.trace p i ++ [result] := by
            simp only [passResultsBefore_append, passResultsBefore_cons_dispatch]
            rw [passResultsBefore_succ st.trace p i hb]
            simp [passResultsBefore_cons_done]
          show mergeCtx ctx result = _
          rw [show (st2.trace ++ [Event.taskDone p i result] : List Event)
              = (st.trace ++ [Event.dispatch p i task.id task.type ctx t])
                ++ [Event.taskDone p i result] from by rw [htr2], hstep]
          rw [List.foldl_append]
          simp [hctx]
        · -- old dispatches keep their property on the extended trace
          intro q i' tid tt c t0 hmem
          have hmem2 : Event.dispatch q i' tid tt c t0
              ∈ (st.trace ++ [Event.dispatch p i task.id task.type ctx t])
                ++ [Event.taskDone p i result] := by
            rw [← htr2]; exact hmem
          have hgoal : ∀ q0 i0, passResultsBefore
              ((st.trace ++ [Event.dispatch p i task.id task.type ctx t])
                ++ [Event.taskDone p i result]) q0 i0
              = passResultsBefore st.trace q0 i0
                ++ (if p = q0 ∧ i < i0 then [result] else []) := by
            intro q0 i0
            simp [passResultsBefore_cons_done]
          simp only [List.mem_append, List.mem_singleton] at hmem2
          rcases hmem2 with (hmem2 | hmem2) | hmem2
          · -- an old dispatch: by the bound, the new result is not among its inputs
            rcases hb _ hmem2 with h1 | h1
            · simp only [Event.passOf] at h1
              have hcond : ¬(p = q ∧ i < i') := by
                intro hc
                omega
              show c = (passResultsBefore (st2.trace ++ [Event.taskDone p i result]) q i').foldl mergeCtx []
              rw [show (st2.trace ++ [Event.taskDone p i result] : List Event)
                  = (st.trace ++ [Event.dispatch p i task.id task.type ctx t])
                    ++ [Event.taskDone p i result] from by rw [htr2], hgoal q i']
              simp only [hcond, if_false, List.append_nil]
              exact hold _ _ _ _ _ _ hmem2
            · simp only [Event.passOf, Event.idxOf] at h1
              have hcond : ¬(p = q ∧ i < i') := by
                intro hc
                omega
              show c = (passResultsBefore (st2.trace ++ [Event.taskDone p i result]) q i').foldl mergeCtx []
              rw [show (st2.trace ++ [Event.taskDone p i result] : List Event)
                  = (st.trace ++ [Event.dispatch p i task.id task.type ctx t])
                    ++ [Event.taskDone p i result] from by rw [htr2], hgoal q i']
              simp only [hcond, if_false, List.append_nil]
              exact hold _ _ _ _ _ _ hmem2
          · -- the fresh dispatch of this step
            simp only [Event.dispatch.injEq] at hmem2
            obtain ⟨hq, hi, -, -, hc, -⟩ := hmem2
            show c = (passResultsBefore (st2.trace ++ [Event.taskDone p i result]) q i').foldl mergeCtx []
            rw [hc, hq, hi]
            rw [show (st2.trace ++ [Event.taskDone p i result] : List Event)
                = (st.trace ++ [Event.dispatch p i task.id task.type ctx t])
                  ++ [Event.taskDone p i result] from by rw [htr2], hgoal p i]
            simpa using hctx
          · exact absurd hmem2 (by simp)
      · -- failure: the appended events settle the conclusion directly
        rename_i st2 msg he
        have hfr := executeTask_frame he
        have htr2 : st2.trace = st.trace ++ [Event.dispatch p i task.id task.type ctx t] := hfr.1
        simp only [Prod.mk.injEq] at h
        rw [← h.1]
        constructor
        · intro q i' tid tt c t0 hmem
          have hmem2 : Event.dispatch q i' tid tt c t0
              ∈ (st.trace ++ [Event.dispatch p i task.id task.type ctx t])
                ++ [Event.taskFailed p i msg] := by
            rw [← htr2]; exact hmem
          have hgoal : ∀ q0 i0, passResultsBefore
              ((st.trace ++ [Event.dispatch p i task.id task.type ctx t])
                ++ [Event.taskFailed p i msg]) q0 i0
              = passResultsBefore st.trace q0 i0 := by
            intro q0 i0
            simp
          simp only [List.mem_append, List.mem_singleton] at hmem2
          rcases hmem2 with (hmem2 | hmem2) | hmem2
          · show c = (passResultsBefore (st2.trace ++ [Event.taskFailed p i msg]) q i').foldl mergeCtx []
            rw [show (st2.trace ++ [Event.taskFailed p i msg] : List Event)
                = (st.trace ++ [Event.dispatch p i task.id task.type ctx t])
                  ++ [Event.taskFailed p i msg] from by rw [htr2], hgoal q i']
            exact hold _ _ _ _ _ _ hmem2
          · simp only [Event.dispatch.injEq] at hmem2
            obtain ⟨hq, hi, -, -, hc, -⟩ := hmem2
            show c = (passResultsBefore (st2.trace ++ [Event.taskFailed p i msg]) q i').foldl mergeCtx []
            rw [hc, hq, hi]
            rw [show (st2.trace ++ [Event.taskFailed p i msg] : List Event)
                = (st.trace ++ [Event.dispatch p i task.id task.type ctx t])
                  ++ [Event.taskFailed p i msg] from by rw [htr2], hgoal p i]
            exact hctx
          · exact absurd hmem2 (by simp)
        · intro e hmem
          have hmem2 : e ∈ (st.trace ++ [Event.dispatch p i task.id task.type ctx t])
              ++ [Event.taskFailed p i msg] := by
            rw [← htr2]; exact hmem
          simp only [List.mem_append, List.mem_singleton] at hmem2
          rcases hmem2 with (hmem2 | hmem2) | hmem2
          · rcases hb e hmem2 with h1 | h1 <;> omega
          · subst hmem2; simp [Event.passOf]
          · subst hmem2; simp [Event.passOf]

theorem runPasses_frame (ops : PageOps σ) (pauseSig : Nat → Bool) (fuel : Nat)
    (snap : List Task) (hasLoop : Bool) (lt0 : Int) :
    ∀ (n p : Nat) (st st' : EngineState σ) (r : RunOutcome),
    runPasses ops pauseSig fuel snap hasLoop lt0 p n st = (st', r) →
    st'.status.totalLoops = st.status.totalLoops ∧
    st'.status.totalTasks = st.status.totalTasks ∧
    st'.tasks.map Task.id = st.tasks.map Task.id ∧
    (∃ tr, st'.trace = st.trace ++ tr) ∧
    st'.alerts = st.alerts := by
  intro n
  induction n with
  | zero =>
    intro p st st' r h
    simp only [runPasses, addLog, Prod.mk.injEq] at h
    rw [← h.1]
    refine ⟨by simp [applyStatusUpdate], by simp [applyStatusUpdate], rfl, ⟨[], by simp⟩, rfl⟩
  | succ n ih =>
    intro p st st' r h
    rw [runPasses] at h
    simp only [addLog] at h
    split at h
    · rename_i st1 hrt
      -- runTasks finished the pass; recurse
      have hframe1 := runTasks_frame ops pauseSig fuel p _ _ _ _ _ _ hrt
      obtain ⟨ha1, htl1, htt1, hid1, tr1, htr1⟩ := hframe1
      obtain ⟨htl2, htt2, hid2, ⟨tr2, htr2⟩, ha2⟩ := ih _ _ _ _ h
      constructor
      · rw [htl2, htl1]
        split <;> simp [applyStatusUpdate, addLog]
      · constructor
        · rw [htt2, htt1]
          split <;> simp [applyStatusUpdate, addLog]
        · constructor
          · rw [hid2, hid1]
            split <;> simp [addLog]
          · constructor
            · refine ⟨tr1 ++ tr2, ?_⟩
              rw [htr2, htr1]
              split <;> simp [addLog]
            · rw [ha2, ha1]
              split <;> simp [addLog]
    · rename_i st1 k msg hrt
      simp only [Prod.mk.injEq] at h
      have hframe1 := runTasks_frame ops pauseSig fuel p _ _ _ _ _ _ hrt
      rw [← h.1]
      constructor
      · rw [hframe1.2.1]
        split <;> simp [applyStatusUpdate, addLog]
      · constructor
        · rw [hframe1.2.2.1]
          split <;> simp [applyStatusUpdate, addLog]
        · constructor
          · rw [hframe1.2.2.2.1]
            split <;> simp [addLog]
          · constructor
            · obtain ⟨tr1, htr1⟩ := hframe1.2.2.2.2
              refine ⟨tr1, ?_⟩
              rw [htr1]
              split <;> simp [addLog]
            · rw [hframe1.1]
              split <;> simp [addLog]
    · rename_i st1 k hrt
      simp only [Prod.mk.injEq] at h
      have hframe1 := runTasks_frame ops pauseSig fuel p _ _ _ _ _ _ hrt
      rw [← h.1]
      constructor
      · rw [hframe1.2.1]
        split <;> simp [applyStatusUpdate, addLog]
      · constructor
        · rw [hframe1.2.2.1]
          split <;> simp [applyStatusUpdate, addLog]
        · constructor
          · rw [hframe1.2.2.2.1]
            split <;> simp [addLog]
          · constructor
            · obtain ⟨tr1, htr1⟩ := hframe1.2.2.2.2
              refine ⟨tr1, ?_⟩
              rw [htr1]
              split <;> simp [addLog]
            · rw [hframe1.1]
              split <;> simp [addLog]

theorem runPasses_completed (ops : PageOps σ) (pauseSig : Nat → Bool) (fuel : Nat)
    (snap : List Task) (hasLoop : Bool) (lt0 : Int) :
    ∀ (n p : Nat) (st st' : EngineState σ),
    runPasses ops pauseSig fuel snap hasLoop lt0 p n st = (st', .completed) →
    st'.status.isExecuting = false ∧
    st'.status.isPaused = false ∧
    st'.status.currentTaskIndex = -1 ∧
    st'.status.currentLoop = none ∧
    "All tasks executed successfully!" ∈ st'.logs := by
  intro n
  induction n with
  | zero =>
    intro p st st' h
    simp only [runPasses, addLog, Prod.mk.injEq] at h
    rw [← h.1]
    refine ⟨by simp [applyStatusUpdate], by simp [applyStatusUpdate],
      by simp [applyStatusUpdate], by simp [applyStatusUpdate], ?_⟩
    exact List.mem_append_right _ (List.mem_singleton.mpr rfl)
  | succ n ih =>
    intro p st st' h
    rw [runPasses] at h
    simp only [addLog] at h
    split at h
    · exact ih _ _ _ h
    · simp at h
    · simp at h

theorem runPasses_completed_trace (ops : PageOps σ) (pauseSig : Nat → Bool) (fuel : Nat)
    (snap : List Task) (hasLoop : Bool) (lt0 : Int) :
    ∀ (n p : Nat) (st st' : EngineState σ),
    runPasses ops pauseSig fuel snap hasLoop lt0 p n st = (st', .completed) →
    dispatches st'.trace = dispatches st.trace
      ++ passesSpec (if hasLoop then snap.dropLast else snap) p n := by
  intro n
  induction n with
  | zero =>
    intro p st st' h
    simp only [runPasses, addLog, Prod.mk.injEq] at h
    rw [← h.1]
    simp [passesSpec]
  | succ n ih =>
    intro p st st' h
    rw [runPasses] at h
    simp only [addLog] at h
    split at h
    · rename_i st1 hrt
      have h1 := runTasks_done_trace ops pauseSig fuel p _ _ _ _ _ hrt
      have h2 := ih _ _ _ h
      rw [h2, h1]
      split <;> simp [passesSpec]
    · simp at h
    · simp at h

theorem runPasses_failed_status (ops : PageOps σ) (pauseSig : Nat → Bool) (fuel : Nat)
    (snap : List Task) (hasLoop : Bool) (lt0 : Int) :
    ∀ (n p : Nat) (st st' : EngineState σ) (q k : Nat) (msg : String),
    runPasses ops pauseSig fuel snap hasLoop lt0 p n st = (st', .failed q k msg) →
    p ≤ q ∧
    st'.status.isExecuting = false ∧
    st'.status.isPaused = false ∧
    st'.status.currentTaskIndex = Int.ofNat k ∧
    ("Task " ++ toString (k + 1) ++ " failed: " ++ msg) ∈ st'.logs := by
  intro n
  induction n with
  | zero =>
    intro p st st' q k msg h
    simp [runPasses, addLog] at h
  | succ n ih =>
    intro p st st' q k msg h
    rw [runPasses] at h
    simp only [addLog] at h
    split at h
    · rename_i st1 hrt
      obtain ⟨hq, rest⟩ := ih _ _ _ _ _ _ h
      exact ⟨by omega, rest⟩
    · rename_i st1 k0 msg0 hrt
      simp only [Prod.mk.injEq, RunOutcome.failed.injEq] at h
      obtain ⟨hst, hpq, hk, hmsg⟩ := h
      obtain ⟨pre, fail, post, -, -, hie, hip, hci, hlog, -, -⟩ :=
        runTasks_failedAt ops pauseSig fuel p _ _ _ _ _ _ _ hrt
      subst hk
      subst hmsg
      rw [← hst]
      exact ⟨by omega, hie, hip, hci, hlog⟩
    · simp at h

theorem runPasses_failed_zero (ops : PageOps σ) (pauseSig : Nat → Bool) (fuel : Nat)
    (snap : List Task) (hasLoop : Bool) (lt0 : Int) :
    ∀ (n : Nat) (st st' : EngineState σ) (k : Nat) (msg : String),
    runPasses ops pauseSig fuel snap hasLoop lt0 0 n st = (st', .failed 0 k msg) →
    runTasks ops pauseSig fuel 0 (if hasLoop then snap.dropLast else snap) 0 [] st
      = (st', .failedAt k msg) := by
  intro n st st' k msg h
  cases n with
  | zero => simp [runPasses, addLog] at h
  | succ n =>
    rw [runPasses] at h
    simp only [addLog] at h
    have hcond : (hasLoop && decide (0 < 0)) = false := by simp
    rw [hcond] at h
    simp only [if_false, Bool.false_eq_true] at h
    split at h
    · rename_i st1 hrt
      obtain ⟨hq, -⟩ := runPasses_failed_status ops pauseSig fuel snap hasLoop lt0 _ _ _ _ _ _ _ h
      omega
    · rename_i st1 k0 msg0 hrt
      simp only [Prod.mk.injEq, RunOutcome.failed.injEq] at h
      obtain ⟨hst, -, hk, hmsg⟩ := h
      subst hk
      subst hmsg
      rw [← hst]
      exact hrt
    · simp at h

theorem runPasses_pause (ops : PageOps σ) (pauseSig : Nat → Bool) (fuel : Nat)
    (snap : List Task) (hasLoop : Bool) (lt0 : Int) :
    ∀ (n p : Nat) (st st' : EngineState σ) (r : RunOutcome),
    runPasses ops pauseSig fuel snap hasLoop lt0 p n st = (st', r) →
    (∀ q j tid tt c t, Event.dispatch q j tid tt c t ∈ st.trace → pauseSig t = false) →
    (∀ q j tid tt c t, Event.dispatch q j tid tt c t ∈ st'.trace → pauseSig t = false) := by
  intro n
  induction n with
  | zero =>
    intro p st st' r h hsafe
    simp only [runPasses, addLog, Prod.mk.injEq] at h
    rw [← h.1]
    exact hsafe
  | succ n ih =>
    intro p st st' r h hsafe
    rw [runPasses] at h
    simp only [addLog] at h
    have hsafe2 : ∀ q j tid tt c t, Event.dispatch q j tid tt c t ∈
        (if (hasLoop && decide (0 < p)) = true then
          { tasks := st.tasks,
            status := applyStatusUpdate st.status
              { isExecuting := none, isPaused := none, currentTaskIndex := none,
                totalTasks := none, currentLoop := some (some (Int.ofNat p + 1)),
                totalLoops := none, extractedData := none },
            logs := st.logs ++ ["Loop " ++ toString (p + 1) ++ "/" ++ toString lt0
              ++ " - Restarting sequence"],
            alerts := st.alerts, trace := st.trace, clock := st.clock, world := st.world }
          else st : EngineState σ).trace → pauseSig t = false := by
      split
      · exact hsafe
      · exact hsafe
    split at h
    · rename_i st1 hrt
      exact ih _ _ _ _ h (runTasks_pause ops pauseSig fuel p _ _ _ _ _ _ hrt hsafe2)
    · rename_i st1 k0 msg0 hrt
      simp only [Prod.mk.injEq] at h
      rw [← h.1]
      exact runTasks_pause ops pauseSig fuel p _ _ _ _ _ _ hrt hsafe2
    · rename_i st1 k0 hrt
      simp only [Prod.mk.injEq] at h
      rw [← h.1]
      exact runTasks_pause ops pauseSig fuel p _ _ _ _ _ _ hrt hsafe2

theorem runPasses_bound (ops : PageOps σ) (pauseSig : Nat → Bool) (fuel : Nat)
    (snap : List Task) (hasLoop : Bool) (lt0 : Int) :
    ∀ (n p : Nat) (st st' : EngineState σ) (r : RunOutcome),
    runPasses ops pauseSig fuel snap hasLoop lt0 p n st = (st', r) →
    ∀ x ∈ dispatches st'.trace,
      x ∈ dispatches st.trace
        ∨ x.2.1 < (if hasLoop then snap.dropLast else snap).length := by
  intro n
  induction n with
  | zero =>
    intro p st st' r h x hx
    simp only [runPasses, addLog, Prod.mk.injEq] at h
    rw [← h.1] at hx
    exact Or.inl hx
  | succ n ih =>
    intro p st st' r h x hx
    rw [runPasses] at h
    simp only [addLog] at h
    split at h
    · rename_i st1 hrt
      rcases ih _ _ _ _ h x hx with hin | hin
      · rcases runTasks_bound ops pauseSig fuel p _ _ _ _ _ _ hrt x hin with hin2 | hin2
        · revert hin2
          split <;> (intro hin2; exact Or.inl hin2)
        · exact Or.inr (by omega)
      · exact Or.inr hin
    · rename_i st1 k0 msg0 hrt
      simp only [Prod.mk.injEq] at h
      rw [← h.1] at hx
      rcases runTasks_bound ops pauseSig fuel p _ _ _ _ _ _ hrt x hx with hin2 | hin2
      · revert hin2
        split <;> (intro hin2; exact Or.inl hin2)
      · exact Or.inr (by omega)
    · rename_i st1 k0 hrt
      simp only [Prod.mk.injEq] at h
      rw [← h.1] at hx
      rcases runTasks_bound ops pauseSig fuel p _ _ _ _ _ _ hrt x hx with hin2 | hin2
      · revert hin2
        split <;> (intro hin2; exact Or.inl hin2)
      · exact Or.inr (by omega)

theorem runPasses_ctx (ops : PageOps σ) (pauseSig : Nat → Bool) (fuel : Nat)
    (snap : List Task) (hasLoop : Bool) (lt0 : Int) :
    ∀ (n p : Nat) (st st' : EngineState σ) (r : RunOutcome),
    runPasses ops pauseSig fuel snap hasLoop lt0 p n st = (st', r) →
    (∀ e ∈ st.trace, e.passOf < p) →
    (∀ q i' tid tt c t, Event.dispatch q i' tid tt c t ∈ st.trace →
      c = (passResultsBefore st.trace q i').foldl mergeCtx []) →
    (∀ q i' tid tt c t, Event.dispatch q i' tid tt c t ∈ st'.trace →
      c = (passResultsBefore st'.trace q i').foldl mergeCtx []) := by
  intro n
  induction n with
  | zero =>
    intro p st st' r h hb hold
    simp only [runPasses, addLog, Prod.mk.injEq] at h
    rw [← h.1]
    exact hold
  | succ n ih =>
    intro p st st' r h hb hold
    rw [runPasses] at h
    simp only [addLog] at h
    have hb2 : ∀ e ∈ (if (hasLoop && decide (0 < p)) = true then
          { tasks := st.tasks,
            status := applyStatusUpdate st.status
              { isExecuting := none, isPaused := none, currentTaskIndex := none,
                totalTasks := none, currentLoop := some (some (Int.ofNat p + 1)),
                totalLoops := none, extractedData := none },
            logs := st.logs ++ ["Loop " ++ toString (p + 1) ++ "/" ++ toString lt0
              ++ " - Restarting sequence"],
            alerts := st.alerts, trace := st.trace, clock := st.clock, world := st.world }
          else st : EngineState σ).trace,
        e.passOf < p ∨ (e.passOf = p ∧ e.idxOf < 0) := by
      split
      · intro e he
        exact Or.inl (hb e he)
      · intro e he
        exact Or.inl (hb e he)
    have hold2 : ∀ q i' tid tt c t, Event.dispatch q i' tid tt c t ∈
        (if (hasLoop && decide (0 < p)) = true then
          { tasks := st.tasks,
            status := applyStatusUpdate st.status
              { isExecuting := none, isPaused := none, currentTaskIndex := none,
                totalTasks := none, currentLoop := some (some (Int.ofNat p + 1)),
                totalLoops := none, extractedData := none },
            logs := st.logs ++ ["Loop " ++ toString (p + 1) ++ "/" ++ toString lt0
              ++ " - Restarting sequence"],
            alerts := st.alerts, trace := st.trace, clock := st.clock, world := st.world }
          else st : EngineState σ).trace →
        c = (passResultsBefore
          (if (hasLoop && decide (0 < p)) = true then
            { tasks := st.tasks,
              status := applyStatusUpdate st.status
                { isExecuting := none, isPaused := none, currentTaskIndex := none,
                  totalTasks := none, currentLoop := some (some (Int.ofNat p + 1)),
                  totalLoops := none, extractedData := none },
              logs := st.logs ++ ["Loop " ++ toString (p + 1) ++ "/" ++ toString lt0
                ++ " - Restarting sequence"],
              alerts := st.alerts, trace := st.trace, clock := st.clock, world := st.world }
            else st : EngineState σ).trace q i').foldl mergeCtx [] := by
      split
      · exact hold
      · exact hold
    have hctx2 : ([] : Ctx) = (passResultsBefore
        (if (hasLoop && decide (0 < p)) = true then
          { tasks := st.tasks,
            status := applyStatusUpdate st.status
              { isExecuting := none, isPaused := none, currentTaskIndex := none,
                totalTasks := none, currentLoop := some (some (Int.ofNat p + 1)),
                totalLoops := none, extractedData := none },
            logs := st.logs ++ ["Loop " ++ toString (p + 1) ++ "/" ++ toString lt0
              ++ " - Restarting sequence"],
            alerts := st.alerts, trace := st.trace, clock := st.clock, world := st.world }
          else st : EngineState σ).trace p 0).foldl mergeCtx [] := by
      have hz : ∀ tr : List Event, passResultsBefore tr p 0 = [] := by
        intro tr
        unfold passResultsBefore
        apply List.filterMap_eq_nil_iff.mpr
        intro e he
        cases e <;> simp
      rw [hz]
      rfl
    split at h
    · rename_i st1 hrt
      obtain ⟨hdone, hpas⟩ := runTasks_ctx ops pauseSig fuel p _ _ _ _ _ _ hrt hb2 hctx2 hold2
      refine ih _ _ _ _ h ?_ hdone
      intro e he
      have := hpas e he
      omega
    · rename_i st1 k0 msg0 hrt
      simp only [Prod.mk.injEq] at h
      rw [← h.1]
      exact (runTasks_ctx ops pauseSig fuel p _ _ _ _ _ _ hrt hb2 hctx2 hold2).1
    · rename_i st1 k0 hrt
      simp only [Prod.mk.injEq] at h
      rw [← h.1]
      exact (runTasks_ctx ops pauseSig fuel p _ _ _ _ _ _ hrt hb2 hctx2 hold2).1



theorem executeSequence_run (ops : PageOps σ) (pauseSig : Nat → Bool) (fuel : Nat)
    (warnings : List String) (tasks : List Task) (w : σ) (h : tasks ≠ []) :
    executeSequence ops pauseSig fuel true warnings (initState tasks w)
      = runPasses ops pauseSig fuel tasks (hasTrailingLoop tasks) (effLoopCount tasks)
          0 (effLoopCount tasks).toNat (startState tasks w) := by
  unfold executeSequence initState startState
  have hne : tasks.isEmpty = false := by
    cases tasks with
    | nil => exact absurd rfl h
    | cons a l => rfl
  simp only [hne, Bool.false_eq_true, if_false, Bool.not_true, applyStatusUpdate, addLog]
  split <;> split <;> simp [applyStatusUpdate, addLog]
theorem mem_dispatchSpec (p : Nat) :
    ∀ (l : List Task) (i : Nat) (x : Nat × Nat × TaskType), x ∈ dispatchSpec p i l →
    x.1 = p ∧ i ≤ x.2.1 ∧ x.2.1 < i + l.length ∧
      ∃ tk, l[x.2.1 - i]? = some tk ∧ x.2.2 = tk.type := by
  intro l
  induction l with
  | nil => intro i x hx; simp [dispatchSpec] at hx
  | cons t rest ih =>
    intro i x hx
    simp only [dispatchSpec, List.mem_cons] at hx
    rcases hx with hx | hx
    · subst hx
      exact ⟨rfl, le_refl _, by simp, t, by simp, rfl⟩
    · obtain ⟨h1, h2, h3, tk, h4, h5⟩ := ih (i + 1) x hx
      refine ⟨h1, by omega, by simp; omega, tk, ?_, h5⟩
      have : x.2.1 - i = (x.2.1 - (i + 1)) + 1 := by omega
      rw [this]
      simpa using h4

theorem mem_passesSpec (body : List Task) :
    ∀ (n p : Nat) (x : Nat × Nat × TaskType), x ∈ passesSpec body p n →
    p ≤ x.1 ∧ x.1 < p + n ∧ x.2.1 < body.length ∧
      ∃ tk, body[x.2.1]? = some tk ∧ x.2.2 = tk.type := by
  intro n
  induction n with
  | zero => intro p x hx; simp [passesSpec] at hx
  | succ n ih =>
    intro p x hx
    simp only [passesSpec, List.mem_append] at hx
    rcases hx with hx | hx
    · obtain ⟨h1, h2, h3, tk, h4, h5⟩ := mem_dispatchSpec p body 0 x hx
      refine ⟨by omega, by omega, by omega, tk, ?_, h5⟩
      simpa using h4
    · obtain ⟨h1, h2, h3, h4⟩ := ih (p + 1) x hx
      exact ⟨by omega, by omega, h3, h4⟩

theorem dispatchSpec_filter_idx (p : Nat) :
    ∀ (l : List Task) (i j : Nat),
    ((dispatchSpec p i l).filter (fun x => x.2.1 = j)).length
      = if i ≤ j ∧ j < i + l.length then 1 else 0 := by
  intro l
  induction l with
  | nil =>
    intro i j
    rw [if_neg (by simp only [List.length_nil]; omega)]
    rfl
  | cons t rest ih =>
    intro i j
    show (List.filter (fun x => decide (x.2.1 = j))
      ((p, i, t.type) :: dispatchSpec p (i + 1) rest)).length = _
    rw [List.filter_cons]
    by_cases hij : i = j
    · subst hij
      rw [if_pos (by simp)]
      rw [List.length_cons, ih (i + 1) i, if_neg (by omega),
        if_pos ⟨le_refl _, by simp only [List.length_cons]; omega⟩]
    · rw [if_neg (by simpa using hij), ih (i + 1) j]
      by_cases hc : i + 1 ≤ j ∧ j < i + 1 + rest.length
      · rw [if_pos hc, if_pos ⟨by omega, by simp only [List.length_cons]; omega⟩]
      · rw [if_neg hc, if_neg (by simp only [List.length_cons]; omega)]

theorem passesSpec_filter_idx (body : List Task) :
    ∀ (n p j : Nat), j < body.length →
    ((passesSpec body p n).filter (fun x => x.2.1 = j)).length = n := by
  intro n
  induction n with
  | zero => intro p j hj; simp [passesSpec]
  | succ n ih =>
    intro p j hj
    simp only [passesSpec, List.filter_append, List.length_append]
    rw [ih (p + 1) j hj, dispatchSpec_filter_idx, if_pos ⟨Nat.zero_le _, by omega⟩]
    omega

theorem take_append_cons {α : Type} (a : List α) (b : α) (c : List α) :
    (a ++ b :: c).take (a.length + 1) = a ++ [b] := by
  induction a with
  | nil => simp
  | cons x xs ih => simp [ih]

end Lemmas


/-! ## The claims -/

section ClaimTheorems

variable {σ : Type}


/-- C6: If the sequence is empty or no page-view control surface is
available, the run aborts immediately with a user-visible alert before
any task executes, and nothing else changes: the tasks, the execution
status, the logs and the trace are exactly those of the initial state. -/
theorem C6_precondition_abort (ops : PageOps σ) (pauseSig : Nat → Bool)
    (fuel : Nat) (webviewAvailable : Bool) (warnings : List String)
    (tasks : List Task) (w : σ) :
    (tasks = [] →
      executeSequence ops pauseSig fuel webviewAvailable warnings (initState tasks w)
        = ({ initState tasks w with alerts := ["No tasks to execute"] }, .abortedEmpty)) ∧
    (tasks ≠ [] → webviewAvailable = false →
      executeSequence ops pauseSig fuel webviewAvailable warnings (initState tasks w)
        = ({ initState tasks w with alerts := ["Webview not available"] }, .abortedNoWebview)) := by
  constructor
  · intro h
    subst h
    rfl
  · intro h hw
    subst hw
    have hne : tasks.isEmpty = false := by
      cases tasks with
      | nil => exact absurd rfl h
      | cons a l => rfl
    unfold executeSequence initState
    simp [hne]

theorem C6_witness :
    executeSequence constOps noPause 0 true [] (initState ([] : List Task) 0)
      = ({ initState ([] : List Task) 0 with alerts := ["No tasks to execute"] },
          .abortedEmpty) :=
  (C6_precondition_abort constOps noPause 0 true [] [] 0).1 rfl

/-- C10 (amended): the find handler resolves its search text as the
first JS-truthy (present AND non-empty) value of `config.text`,
`config.selector`, `context.lastFoundText`, in that order, and throws
`'Text to find is required'` exactly when all three are absent or empty;
in particular a find configured only with a non-empty selector resolves
to the selector. -/
theorem C10_find_text_resolution (ops : PageOps σ) (st : EngineState σ)
    (task : Task) (ctx : Ctx) (h : task.type = .find) :
    (jsTruthyStr task.config.text = true →
      resolveFindText task.config ctx = task.config.text) ∧
    (jsTruthyStr task.config.text = false → jsTruthyStr task.config.selector = true →
      resolveFindText task.config ctx = task.config.selector) ∧
    (jsTruthyStr task.config.text = false → jsTruthyStr task.config.selector = false →
      jsTruthyStr (ctxGetStr ctx "lastFoundText") = true →
      resolveFindText task.config ctx = ctxGetStr ctx "lastFoundText") ∧
    ((resolveFindText task.config ctx = none) ↔
      (jsTruthyStr task.config.text = false ∧ jsTruthyStr task.config.selector = false ∧
        jsTruthyStr (ctxGetStr ctx "lastFoundText") = false)) ∧
    ((executeTask ops st task ctx).2 = .error "Text to find is required" ↔
      resolveFindText task.config ctx = none) := by
  have hnn : ∀ o : Option String, jsTruthyStr o = true → ¬o = none := by
    intro o ho
    cases o <;> simp [jsTruthyStr] at ho ⊢
  refine ⟨?_, ?_, ?_, ?_, ?_⟩
  · intro h1
    unfold resolveFindText jsOrStr
    simp [h1]
  · intro h1 h2
    unfold resolveFindText jsOrStr
    simp [h1, h2]
  · intro h1 h2 h3
    unfold resolveFindText jsOrStr
    simp [h1, h2, h3]
  · unfold resolveFindText jsOrStr
    by_cases h1 : jsTruthyStr task.config.text = true <;>
      by_cases h2 : jsTruthyStr task.config.selector = true <;>
      by_cases h3 : jsTruthyStr (ctxGetStr ctx "lastFoundText") = true <;>
      simp_all
  · cases task with
    | mk tid tt cfg stat res err =>
      cases h
      unfold executeTask
      cases hr : resolveFindText cfg ctx with
      | none => simp [hr]
      | some s => simp [hr, addLog]

theorem C10_witness :
    resolveFindText { selector := some "button" } [] = some "button" := by
  have h := C10_find_text_resolution constOps (initState ([] : List Task) 0)
    (mkTask "f" .find { selector := some "button" }) [] rfl
  exact h.2.1 rfl rfl

/-- C10 counterexample: a find task whose `config.text` IS present (the
empty string), with no selector and no inherited text, still throws
`'Text to find is required'` — so the error is not thrown "exactly when
all three are absent". -/
theorem C10_counterexample :
    ((mkTask "f" .find { text := some "" }).config.text).isSome = true ∧
    (executeTask constOps (initState ([] : List Task) 0)
      (mkTask "f" .find { text := some "" }) []).2
      = .error "Text to find is required" := by
  exact ⟨rfl, rfl⟩

/-- C9: the extract-dom handler collects at most 10 visible links and at
most 5 headings, each as a `{title, url?, type}` record with type tag
`"link"` or `"heading"` (every link item carries the url of a visible
link of the page; heading items carry no url), returns them under the
context key `extractedData`, and writes them into the execution status
for display. -/
theorem C9_extract_handler (ops : PageOps σ) (st : EngineState σ)
    (task : Task) (ctx : Ctx) (h : task.type = .extractDom) :
    ((extractScript (ops.domSnapshot st.world)).filter
        (fun it => it.type = "link")).length ≤ 10 ∧
    ((extractScript (ops.domSnapshot st.world)).filter
        (fun it => it.type = "heading")).length ≤ 5 ∧
    (∀ it ∈ extractScript (ops.domSnapshot st.world),
      it.type = "link" ∨ it.type = "heading") ∧
    (∀ it ∈ extractScript (ops.domSnapshot st.world), it.type = "link" →
      ∃ l ∈ (ops.domSnapshot st.world).links,
        l.visible = true ∧ it.title = l.textContent.trim ∧ it.url = some l.href) ∧
    (∀ it ∈ extractScript (ops.domSnapshot st.world), it.type = "heading" →
      it.url = none) ∧
    (executeTask ops st task ctx).2
      = .ok (mergeCtx ctx
          [("extractedData", .items (extractScript (ops.domSnapshot st.world)))]) ∧
    (executeTask ops st task ctx).1.status.extractedData
      = some (extractScript (ops.domSnapshot st.world)) := by
  have hsplit : extractScript (ops.domSnapshot st.world)
      = (((ops.domSnapshot st.world).links.filter (fun a =>
          !a.href.isEmpty && !a.textContent.trim.isEmpty && a.visible)).take 10).map
        (fun a => ({ title := a.textContent.trim, url := some a.href, type := "link" }
          : ExtractItem))
        ++ ((ops.domSnapshot st.world).headings.take 5).map
          (fun hh => ({ title := hh.textContent.trim, url := none, type := "heading" }
            : ExtractItem)) := rfl
  have hmemA : ∀ it ∈ (((ops.domSnapshot st.world).links.filter (fun a =>
        !a.href.isEmpty && !a.textContent.trim.isEmpty && a.visible)).take 10).map
      (fun a => ({ title := a.textContent.trim, url := some a.href, type := "link" }
        : ExtractItem)),
      it.type = "link" ∧ ∃ l ∈ (ops.domSnapshot st.world).links,
        l.visible = true ∧ it.title = l.textContent.trim ∧ it.url = some l.href := by
    intro it hit
    simp only [List.mem_map] at hit
    obtain ⟨a, ha, rfl⟩ := hit
    have ha2 := List.mem_of_mem_take ha
    simp only [List.mem_filter] at ha2
    refine ⟨rfl, a, ha2.1, ?_, rfl, rfl⟩
    have h3 := ha2.2
    simp only [Bool.and_eq_true] at h3
    exact h3.2
  have hmemB : ∀ it ∈ ((ops.domSnapshot st.world).headings.take 5).map
      (fun hh => ({ title := hh.textContent.trim, url := none, type := "heading" }
        : ExtractItem)),
      it.type = "heading" ∧ it.url = none := by
    intro it hit
    simp only [List.mem_map] at hit
    obtain ⟨a, ha, rfl⟩ := hit
    exact ⟨rfl, rfl⟩
  refine ⟨?_, ?_, ?_, ?_, ?_, ?_, ?_⟩
  · rw [hsplit, List.filter_append, List.length_append]
    have hBnil : (((ops.domSnapshot st.world).headings.take 5).map
        (fun hh => ({ title := hh.textContent.trim, url := none, type := "heading" }
          : ExtractItem))).filter (fun it => it.type = "link") = [] := by
      apply List.filter_eq_nil_iff.mpr
      intro a ha
      have := (hmemB a ha).1
      simp [this]
    rw [hBnil]
    simp only [List.length_nil, Nat.add_zero]
    refine le_trans (List.length_filter_le _ _) ?_
    rw [List.length_map]
    exact List.length_take_le _ _
  · rw [hsplit, List.filter_append, List.length_append]
    have hAnil : ((((ops.domSnapshot st.world).links.filter (fun a =>
        !a.href.isEmpty && !a.textContent.trim.isEmpty && a.visible)).take 10).map
        (fun a => ({ title := a.textContent.trim, url := some a.href, type := "link" }
          : ExtractItem))).filter (fun it => it.type = "heading") = [] := by
      apply List.filter_eq_nil_iff.mpr
      intro a ha
      have := (hmemA a ha).1
      simp [this]
    rw [hAnil]
    simp only [List.length_nil, Nat.zero_add]
    refine le_trans (List.length_filter_le _ _) ?_
    rw [List.length_map]
    exact List.length_take_le _ _
  · intro it hit
    rw [hsplit] at hit
    rcases List.mem_append.mp hit with hit | hit
    · exact Or.inl (hmemA it hit).1
    · exact Or.inr (hmemB it hit).1
  · intro it hit hl
    rw [hsplit] at hit
    rcases List.mem_append.mp hit with hit | hit
    · exact (hmemA it hit).2
    · have h1 := (hmemB it hit).1
      rw [h1] at hl
      exact absurd hl (by decide)
  · intro it hit hh
    rw [hsplit] at hit
    rcases List.mem_append.mp hit with hit | hit
    · have := (hmemA it hit).1
      rw [this] at hh
      exact absurd hh (by decide)
    · exact (hmemB it hit).2
  · cases task with
    | mk tid tt cfg stat res err =>
      cases h
      rfl
  · cases task with
    | mk tid tt cfg stat res err =>
      cases h
      rfl

theorem C9_witness :
    (executeTask constOps (initState ([] : List Task) 0) (mkTask "x" .extractDom {}) []).2
      = .ok (mergeCtx [] [("extractedData",
          .items (extractScript (constOps.domSnapshot (initState ([] : List Task) 0).world)))]) :=
  (C9_extract_handler constOps (initState ([] : List Task) 0)
    (mkTask "x" .extractDom {}) [] rfl).2.2.2.2.2.1

/-- C5 counterexample: a loop-typed task that is NOT in last position IS
dispatched to `executeTask` — the sequence `[loop, wait]` completes with
a dispatch of the loop task at index 0. -/
theorem C5_counterexample :
    (executeSequence constOps noPause 0 true []
      (initState [mkTask "a" .loop {}, mkTask "b" .wait {}] 0)).2 = .completed ∧
    (0, 0, TaskType.loop) ∈ dispatches (executeSequence constOps noPause 0 true []
      (initState [mkTask "a" .loop {}, mkTask "b" .wait {}] 0)).1.trace := by
  exact ⟨rfl, by decide⟩

/-- C5 (amended): only a TRAILING loop task is excluded from dispatch
(every dispatched index is below the last position when the sequence
ends in a loop task); a loop task at any other index is dispatched to
`executeTask`, whose loop case is a no-op returning the context
unchanged and touching neither the page nor the store. -/
theorem C5_loop_task_dispatch (ops : PageOps σ) (pauseSig : Nat → Bool)
    (fuel : Nat) (warnings : List String) (tasks : List Task) (w : σ)
    (st' : EngineState σ) (r : RunOutcome)
    (hrun : executeSequence ops pauseSig fuel true warnings (initState tasks w) = (st', r)) :
    (hasTrailingLoop tasks = true →
      ∀ x ∈ dispatches st'.trace, x.2.1 < tasks.length - 1) ∧
    (∀ (st0 : EngineState σ) (task : Task) (ctx : Ctx), task.type = .loop →
      executeTask ops st0 task ctx
        = (addLog st0 "Loop task - execution handled at sequence level", .ok ctx)) := by
  constructor
  · intro hloop x hx
    by_cases hne : tasks = []
    · subst hne
      have hrun2 : ({ initState ([] : List Task) w with alerts := ["No tasks to execute"] },
          (.abortedEmpty : RunOutcome)) = (st', r) := hrun
      simp only [Prod.mk.injEq] at hrun2
      rw [← hrun2.1] at hx
      simp [initState, dispatches] at hx
    · rw [executeSequence_run ops pauseSig fuel warnings tasks w hne] at hrun
      rcases runPasses_bound ops pauseSig fuel tasks (hasTrailingLoop tasks)
          (effLoopCount tasks) _ _ _ _ _ hrun x hx with hin | hin
      · simp [startState, dispatches] at hin
      · rw [hloop] at hin
        simp only [if_true] at hin
        rw [List.length_dropLast] at hin
        exact hin
  · intro st0 task ctx ht
    cases task with
    | mk tid tt cfg stat res err =>
      cases ht
      rfl

theorem C5_witness :
    ((0, 0, TaskType.wait) : Nat × Nat × TaskType).2.1
      < [mkTask "a" .wait {}, mkTask "b" .loop { loopCount := some 3 }].length - 1 ∧
    executeTask constOps (initState ([] : List Task) 0) (mkTask "l" .loop {}) []
      = (addLog (initState ([] : List Task) 0)
          "Loop task - execution handled at sequence level", .ok []) := by
  have h := C5_loop_task_dispatch constOps noPause 0 []
    [mkTask "a" .wait {}, mkTask "b" .loop { loopCount := some 3 }] 0
    (executeSequence constOps noPause 0 true []
      (initState [mkTask "a" .wait {}, mkTask "b" .loop { loopCount := some 3 }] 0)).1
    (executeSequence constOps noPause 0 true []
      (initState [mkTask "a" .wait {}, mkTask "b" .loop { loopCount := some 3 }] 0)).2
    rfl
  exact ⟨h.1 rfl (0, 0, TaskType.wait) (by decide), h.2 _ _ _ rfl⟩

/-- C8: no task is dispatched while the pause flag reads true — every
dispatch event in a run's trace carries a poll instant at which the
pause signal read false, i.e. a task paused before it starts only once
`isPaused` has become false again (the pause is polled at task
boundaries; in-flight handler work is never interrupted as `executeTask`
never reads the flag). -/
theorem C8_no_dispatch_while_paused (ops : PageOps σ) (pauseSig : Nat → Bool)
    (fuel : Nat) (warnings : List String) (tasks : List Task) (w : σ)
    (st' : EngineState σ) (r : RunOutcome)
    (hrun : executeSequence ops pauseSig fuel true warnings (initState tasks w) = (st', r)) :
    ∀ p i tid tt c t, Event.dispatch p i tid tt c t ∈ st'.trace → pauseSig t = false := by
  intro p i tid tt c t hmem
  by_cases hne : tasks = []
  · subst hne
    have hrun2 : ({ initState ([] : List Task) w with alerts := ["No tasks to execute"] },
        (.abortedEmpty : RunOutcome)) = (st', r) := hrun
    simp only [Prod.mk.injEq] at hrun2
    rw [← hrun2.1] at hmem
    simp [initState] at hmem
  · rw [executeSequence_run ops pauseSig fuel warnings tasks w hne] at hrun
    refine runPasses_pause ops pauseSig fuel tasks (hasTrailingLoop tasks)
      (effLoopCount tasks) _ _ _ _ _ hrun ?_ p i tid tt c t hmem
    intro q j tid0 tt0 c0 t0 hmem0
    simp [startState] at hmem0

theorem C8_witness :
    (fun t : Nat => decide (t < 2)) 2 = false := by
  have h := C8_no_dispatch_while_paused constOps (fun t : Nat => decide (t < 2)) 5 []
    [mkTask "a" .wait {}] 0
    (executeSequence constOps (fun t : Nat => decide (t < 2)) 5 true []
      (initState [mkTask "a" .wait {}] 0)).1
    (executeSequence constOps (fun t : Nat => decide (t < 2)) 5 true []
      (initState [mkTask "a" .wait {}] 0)).2
    rfl
  exact h 0 0 "a" .wait [] 2 (by decide)

theorem passResultsBefore_zero (tr : List Event) (p : Nat) :
    passResultsBefore tr p 0 = [] := by
  unfold passResultsBefore
  apply List.filterMap_eq_nil_iff.mpr
  intro e he
  cases e <;> simp

/-- C4 counterexample: a trailing loop task with a NEGATIVE configured
count executes ZERO passes (the preceding task is never dispatched), not
one — negative counts are truthy in JS and survive `|| 1`, and the
`for` loop then runs no iteration. -/
theorem C4_counterexample :
    (executeSequence constOps noPause 0 true []
      (initState [mkTask "a" .wait {}, mkTask "b" .loop { loopCount := some (-2) }] 0)).2
      = .completed ∧
    dispatches (executeSequence constOps noPause 0 true []
      (initState [mkTask "a" .wait {}, mkTask "b" .loop { loopCount := some (-2) }] 0)).1.trace
      = [] ∧
    ¬((dispatches (executeSequence constOps noPause 0 true []
      (initState [mkTask "a" .wait {}, mkTask "b" .loop { loopCount := some (-2) }] 0)).1.trace).filter
        (fun x => x.2.1 = 0)).length = 1 := by
  exact ⟨rfl, rfl, by decide⟩

/-- C4 (amended): with a trailing loop task, the number of executed
passes (dispatches of index 0) equals the configured count when it is
positive, equals 1 when the count is unset or zero, and equals 0 when
the count is negative. -/
theorem C4_pass_count (ops : PageOps σ) (pauseSig : Nat → Bool)
    (fuel : Nat) (warnings : List String) (tasks : List Task) (w : σ)
    (st' : EngineState σ)
    (hrun : executeSequence ops pauseSig fuel true warnings (initState tasks w)
      = (st', .completed))
    (hloop : hasTrailingLoop tasks = true) (hlen : 2 ≤ tasks.length) :
    (∀ N : Int, (tasks.getLast?).bind (fun t => t.config.loopCount) = some N → 0 < N →
      ((dispatches st'.trace).filter (fun x => x.2.1 = 0)).length = N.toNat) ∧
    ((tasks.getLast?).bind (fun t => t.config.loopCount) = none →
      ((dispatches st'.trace).filter (fun x => x.2.1 = 0)).length = 1) ∧
    ((tasks.getLast?).bind (fun t => t.config.loopCount) = some 0 →
      ((dispatches st'.trace).filter (fun x => x.2.1 = 0)).length = 1) ∧
    (∀ N : Int, (tasks.getLast?).bind (fun t => t.config.loopCount) = some N → N < 0 →
      ((dispatches st'.trace).filter (fun x => x.2.1 = 0)).length = 0) := by
  have hne : tasks ≠ [] := by
    intro hcontra
    subst hcontra
    simp at hlen
  rw [executeSequence_run ops pauseSig fuel warnings tasks w hne] at hrun
  have htr := runPasses_completed_trace ops pauseSig fuel tasks (hasTrailingLoop tasks)
    (effLoopCount tasks) _ _ _ _ hrun
  simp only [startState, dispatches_nil, List.nil_append, hloop, if_true] at htr
  have hblen : 0 < tasks.dropLast.length := by
    rw [List.length_dropLast]
    omega
  have hcount : ((dispatches st'.trace).filter (fun x => x.2.1 = 0)).length
      = (effLoopCount tasks).toNat := by
    rw [htr]
    exact passesSpec_filter_idx tasks.dropLast _ 0 0 hblen
  have heff : effLoopCount tasks
      = jsOrInt ((tasks.getLast?).bind (fun t => t.config.loopCount)) 1 := by
    unfold effLoopCount
    rw [hloop, if_pos rfl]
  refine ⟨?_, ?_, ?_, ?_⟩
  · intro N hN hpos
    rw [hcount, heff, hN]
    show (if N = 0 then (1 : Int) else N).toNat = N.toNat
    rw [if_neg (by omega)]
  · intro hN
    rw [hcount, heff, hN]
    rfl
  · intro hN
    rw [hcount, heff, hN]
    rfl
  · intro N hN hneg
    rw [hcount, heff, hN]
    show (if N = 0 then (1 : Int) else N).toNat = 0
    rw [if_neg (by omega)]
    exact Int.toNat_of_nonpos (by omega)

theorem C4_witness :
    ((dispatches (executeSequence constOps noPause 0 true []
      (initState [mkTask "a" .wait {}, mkTask "b" .loop { loopCount := some 3 }] 0)).1.trace).filter
        (fun x => x.2.1 = 0)).length = (3 : Int).toNat := by
  have h := C4_pass_count constOps noPause 0 []
    [mkTask "a" .wait {}, mkTask "b" .loop { loopCount := some 3 }] 0
    (executeSequence constOps noPause 0 true []
      (initState [mkTask "a" .wait {}, mkTask "b" .loop { loopCount := some 3 }] 0)).1
    rfl rfl (by decide)
  exact h.1 3 rfl (by decide)

/-- C7 counterexample: after full completion of a run with a trailing
loop of count 2, `totalLoops` is NOT cleared — it still reads `some 2`
in the final execution status. -/
theorem C7_counterexample :
    (executeSequence constOps noPause 0 true []
      (initState [mkTask "a" .wait {}, mkTask "b" .loop { loopCount := some 2 }] 0)).2
      = .completed ∧
    (executeSequence constOps noPause 0 true []
      (initState [mkTask "a" .wait {}, mkTask "b" .loop { loopCount := some 2 }] 0)).1.status.totalLoops
      = some 2 ∧
    (some (2 : Int) ≠ (none : Option Int)) := by
  exact ⟨rfl, rfl, by decide⟩

/-- C7 (amended): on full completion the success marker is logged and
the status is reset to `isExecuting = false`, `isPaused = false`,
`currentTaskIndex = -1`, `currentLoop = none`, while `totalLoops` (and
`totalTasks`) retain their run-start values; on failure only
`isExecuting` and `isPaused` are reset — `currentTaskIndex` remains at
the failing index and the loop counters are not cleared. -/
theorem C7_status_reset (ops : PageOps σ) (pauseSig : Nat → Bool)
    (fuel : Nat) (warnings : List String) (tasks : List Task) (w : σ)
    (st' : EngineState σ) :
    (executeSequence ops pauseSig fuel true warnings (initState tasks w)
        = (st', .completed) →
      st'.status.isExecuting = false ∧ st'.status.isPaused = false ∧
      st'.status.currentTaskIndex = -1 ∧ st'.status.currentLoop = none ∧
      st'.status.totalLoops
        = (if hasTrailingLoop tasks then some (effLoopCount tasks) else none) ∧
      st'.status.totalTasks = tasks.length ∧
      "All tasks executed successfully!" ∈ st'.logs) ∧
    (∀ q i msg, executeSequence ops pauseSig fuel true warnings (initState tasks w)
        = (st', .failed q i msg) →
      st'.status.isExecuting = false ∧ st'.status.isPaused = false ∧
      st'.status.currentTaskIndex = Int.ofNat i ∧
      st'.status.totalLoops
        = (if hasTrailingLoop tasks then some (effLoopCount tasks) else none)) := by
  constructor
  · intro hrun
    have hne : tasks ≠ [] := by
      intro hcontra
      subst hcontra
      have hrun2 : ({ initState ([] : List Task) w with alerts := ["No tasks to execute"] },
          (.abortedEmpty : RunOutcome)) = (st', .completed) := hrun
      simp at hrun2
    rw [executeSequence_run ops pauseSig fuel warnings tasks w hne] at hrun
    obtain ⟨h1, h2, h3, h4, h5⟩ := runPasses_completed ops pauseSig fuel tasks
      (hasTrailingLoop tasks) (effLoopCount tasks) _ _ _ _ hrun
    obtain ⟨htl, htt, -, -, -⟩ := runPasses_frame ops pauseSig fuel tasks
      (hasTrailingLoop tasks) (effLoopCount tasks) _ _ _ _ _ hrun
    simp only [startState] at htl htt
    exact ⟨h1, h2, h3, h4, htl, htt, h5⟩
  · intro q i msg hrun
    have hne : tasks ≠ [] := by
      intro hcontra
      subst hcontra
      have hrun2 : ({ initState ([] : List Task) w with alerts := ["No tasks to execute"] },
          (.abortedEmpty : RunOutcome)) = (st', .failed q i msg) := hrun
      simp at hrun2
    rw [executeSequence_run ops pauseSig fuel warnings tasks w hne] at hrun
    obtain ⟨-, h1, h2, h3, -⟩ := runPasses_failed_status ops pauseSig fuel tasks
      (hasTrailingLoop tasks) (effLoopCount tasks) _ _ _ _ _ _ _ hrun
    obtain ⟨htl, -, -, -, -⟩ := runPasses_frame ops pauseSig fuel tasks
      (hasTrailingLoop tasks) (effLoopCount tasks) _ _ _ _ _ hrun
    simp only [startState] at htl
    exact ⟨h1, h2, h3, htl⟩

theorem C7_witness :
    (executeSequence constOps noPause 0 true []
      (initState [mkTask "a" .wait {}, mkTask "b" .loop { loopCount := some 2 }] 0)).1.status.currentTaskIndex
      = -1 ∧
    (executeSequence constOps noPause 0 true []
      (initState [mkTask "a" .wait {}, mkTask "b" .loop { loopCount := some 2 }] 0)).1.status.totalLoops
      = some 2 := by
  have h := (C7_status_reset constOps noPause 0 []
    [mkTask "a" .wait {}, mkTask "b" .loop { loopCount := some 2 }] 0
    (executeSequence constOps noPause 0 true []
      (initState [mkTask "a" .wait {}, mkTask "b" .loop { loopCount := some 2 }] 0)).1).1 rfl
  exact ⟨h.2.2.1, h.2.2.2.2.1⟩

/-- C1: in a completed run whose last task is `loop` with configured
count N > 1, the dispatch trace is exactly N passes over the tasks
preceding the trailing loop task — each preceding task is dispatched
exactly N times, in the same list order on every pass, and no dispatch
ever reaches the trailing loop task's index; in a completed run with no
trailing loop task, the dispatch trace is exactly one pass over the
whole sequence — each task dispatched exactly once, in list order. -/
theorem C1_dispatch_protocol (ops : PageOps σ) (pauseSig : Nat → Bool)
    (fuel : Nat) (warnings : List String) (tasks : List Task) (w : σ)
    (st' : EngineState σ)
    (hrun : executeSequence ops pauseSig fuel true warnings (initState tasks w)
      = (st', .completed)) :
    (∀ N : Int, hasTrailingLoop tasks = true →
      (tasks.getLast?).bind (fun t => t.config.loopCount) = some N → 1 < N →
      dispatches st'.trace = passesSpec tasks.dropLast 0 N.toNat ∧
      (∀ j, j < tasks.dropLast.length →
        ((dispatches st'.trace).filter (fun x => x.2.1 = j)).length = N.toNat) ∧
      (∀ x ∈ dispatches st'.trace, x.2.1 < tasks.dropLast.length)) ∧
    (hasTrailingLoop tasks = false →
      dispatches st'.trace = dispatchSpec 0 0 tasks ∧
      (∀ j, j < tasks.length →
        ((dispatches st'.trace).filter (fun x => x.2.1 = j)).length = 1)) := by
  have hne : tasks ≠ [] := by
    intro hcontra
    subst hcontra
    have hrun2 : ({ initState ([] : List Task) w with alerts := ["No tasks to execute"] },
        (.abortedEmpty : RunOutcome)) = (st', .completed) := hrun
    simp at hrun2
  rw [executeSequence_run ops pauseSig fuel warnings tasks w hne] at hrun
  have htr := runPasses_completed_trace ops pauseSig fuel tasks (hasTrailingLoop tasks)
    (effLoopCount tasks) _ _ _ _ hrun
  simp only [startState, dispatches_nil, List.nil_append] at htr
  constructor
  · intro N hloop hN hN1
    have heff : effLoopCount tasks = N := by
      unfold effLoopCount
      rw [hloop, if_pos rfl, hN]
      show (if N = 0 then (1 : Int) else N) = N
      rw [if_neg (by omega)]
    rw [hloop, heff] at htr
    rw [if_pos rfl] at htr
    refine ⟨htr, ?_, ?_⟩
    · intro j hj
      rw [htr]
      exact passesSpec_filter_idx tasks.dropLast _ 0 j hj
    · intro x hx
      rw [htr] at hx
      exact (mem_passesSpec tasks.dropLast _ 0 x hx).2.2.1
  · intro hloop
    have heff : effLoopCount tasks = 1 := by
      unfold effLoopCount
      rw [hloop]
      rfl
    rw [hloop, heff] at htr
    simp only [Bool.false_eq_true, if_false, Int.toNat_one] at htr
    have hps : passesSpec tasks 0 1 = dispatchSpec 0 0 tasks := by
      show dispatchSpec 0 0 tasks ++ passesSpec tasks 1 0 = _
      simp [passesSpec]
    rw [hps] at htr
    refine ⟨htr, ?_⟩
    intro j hj
    rw [htr, dispatchSpec_filter_idx, if_pos ⟨Nat.zero_le _, by omega⟩]

theorem C1_witness :
    dispatches (executeSequence constOps noPause 0 true []
      (initState [mkTask "a" .wait {}, mkTask "b" .loop { loopCount := some 3 }] 0)).1.trace
      = passesSpec ([mkTask "a" .wait {},
          mkTask "b" .loop { loopCount := some 3 }].dropLast) 0 (3 : Int).toNat := by
  have h := C1_dispatch_protocol constOps noPause 0 []
    [mkTask "a" .wait {}, mkTask "b" .loop { loopCount := some 3 }] 0
    (executeSequence constOps noPause 0 true []
      (initState [mkTask "a" .wait {}, mkTask "b" .loop { loopCount := some 3 }] 0)).1
    rfl
  exact (h.1 3 rfl rfl (by decide)).1

/-- C3: the execution context is empty at the start of every loop
iteration — every dispatch of the task at index 0 of a pass receives the
empty context, and in general the context a dispatch receives is built
exclusively by folding the results of the earlier tasks of the SAME
pass, so no key produced during one pass is visible to any task of a
later iteration. -/
theorem C3_context_reset (ops : PageOps σ) (pauseSig : Nat → Bool)
    (fuel : Nat) (warnings : List String) (tasks : List Task) (w : σ)
    (st' : EngineState σ) (r : RunOutcome)
    (hrun : executeSequence ops pauseSig fuel true warnings (initState tasks w) = (st', r)) :
    (∀ p tid tt c t, Event.dispatch p 0 tid tt c t ∈ st'.trace → c = []) ∧
    (∀ p i tid tt c t, Event.dispatch p i tid tt c t ∈ st'.trace →
      c = (passResultsBefore st'.trace p i).foldl mergeCtx []) := by
  have hmain : ∀ p i tid tt c t, Event.dispatch p i tid tt c t ∈ st'.trace →
      c = (passResultsBefore st'.trace p i).foldl mergeCtx [] := by
    by_cases hne : tasks = []
    · subst hne
      have hrun2 : ({ initState ([] : List Task) w with alerts := ["No tasks to execute"] },
          (.abortedEmpty : RunOutcome)) = (st', r) := hrun
      simp only [Prod.mk.injEq] at hrun2
      intro p i tid tt c t hmem
      rw [← hrun2.1] at hmem
      simp [initState] at hmem
    · rw [executeSequence_run ops pauseSig fuel warnings tasks w hne] at hrun
      refine runPasses_ctx ops pauseSig fuel tasks (hasTrailingLoop tasks)
        (effLoopCount tasks) _ _ _ _ _ hrun ?_ ?_
      · intro e he
        simp [startState] at he
      · intro q i' tid tt c t hmem
        simp [startState] at hmem
  refine ⟨?_, hmain⟩
  intro p tid tt c t hmem
  have h := hmain p 0 tid tt c t hmem
  rw [h, passResultsBefore_zero]
  rfl

theorem C3_witness :
    ([("lastSearchQuery", Value.str "cats")] : Ctx)
      = (passResultsBefore ((executeSequence constOps noPause 0 true []
          (initState [mkTask "a" .search { searchQuery := some "cats" },
            mkTask "b" .wait {}] 0)).1.trace) 0 1).foldl mergeCtx [] := by
  have h := C3_context_reset constOps noPause 0 []
    [mkTask "a" .search { searchQuery := some "cats" }, mkTask "b" .wait {}] 0
    (executeSequence constOps noPause 0 true []
      (initState [mkTask "a" .search { searchQuery := some "cats" },
        mkTask "b" .wait {}] 0)).1
    (executeSequence constOps noPause 0 true []
      (initState [mkTask "a" .search { searchQuery := some "cats" },
        mkTask "b" .wait {}] 0)).2
    rfl
  exact h.2 0 1 "b" .wait [("lastSearchQuery", Value.str "cats")] 1 (by decide)

theorem find_self_of_get (tasks : List Task) (n : Nat) (t : Task)
    (hnd : (tasks.map Task.id).Nodup) (hget : tasks[n]? = some t) :
    tasks.find? (fun x => x.id = t.id) = some t := by
  induction tasks generalizing n with
  | nil => simp at hget
  | cons hd rest ih =>
    cases n with
    | zero =>
      simp only [List.getElem?_cons_zero, Option.some.injEq] at hget
      subst hget
      simp [List.find?_cons]
    | succ m =>
      simp only [List.getElem?_cons_succ] at hget
      simp only [List.map_cons, List.nodup_cons] at hnd
      have hmem : t ∈ rest := List.getElem?_mem hget
      have hne : hd.id ≠ t.id := by
        intro hcontra
        exact hnd.1 (hcontra ▸ List.mem_map_of_mem Task.id hmem)
      rw [List.find?_cons]
      split
      · rename_i hb
        exact absurd (by simpa using hb) hne
      · exact ih m hnd.2 hget

theorem fieldById_at {α : Type} (f : Task → α) (tasksOrig tasksNew : List Task) (j : Nat)
    (tj : Task) (v : α)
    (hids : tasksNew.map Task.id = tasksOrig.map Task.id)
    (hnd : (tasksOrig.map Task.id).Nodup)
    (hj : tasksOrig[j]? = some tj)
    (hsb : (tasksNew.find? (fun x => x.id = tj.id)).map f = some v) :
    (tasksNew[j]?).map f = some v := by
  have hjlen : j < tasksOrig.length := by
    by_contra hc
    rw [List.getElem?_eq_none (by omega)] at hj
    exact absurd hj (by simp)
  have hjlen2 : j < tasksNew.length := by
    have h1 := congrArg List.length hids
    simp only [List.length_map] at h1
    omega
  have hj2 : tasksNew[j]? = some (tasksNew.get ⟨j, hjlen2⟩) := by
    rw [List.getElem?_eq_getElem hjlen2]
    rfl
  have hid : (tasksNew.get ⟨j, hjlen2⟩).id = tj.id := by
    have h1 := congrArg (fun l => l[j]?) hids
    simp only [List.getElem?_map, hj, hj2, Option.map_some] at h1
    simpa using h1
  have h2 := find_self_of_get tasksNew j (tasksNew.get ⟨j, hjlen2⟩)
    (by rw [hids]; exact hnd) hj2
  rw [← hid, h2] at hsb
  rw [hj2]
  simpa using hsb

/-- C2 (amended): when a handler throws at index `i` during the FIRST
pass of a run whose tasks all start `pending` (and have distinct ids),
the engine marks task `i` failed with the thrown message, appends the
failure log line, sets `isExecuting` to false and dispatches nothing
further: the dispatch trace ends with task `i`, tasks before `i` are
`completed`, and every task after `i` (including a trailing loop task)
is still `pending`.  (In a LATER pass the tasks after `i` instead retain
the `completed` status earned in the previous pass, which is why the
claim is restricted to the first pass.) -/
theorem C2_first_pass_failure (ops : PageOps σ) (pauseSig : Nat → Bool)
    (fuel : Nat) (warnings : List String) (tasks : List Task) (w : σ)
    (st' : EngineState σ) (i : Nat) (msg : String)
    (hrun : executeSequence ops pauseSig fuel true warnings (initState tasks w)
      = (st', .failed 0 i msg))
    (hnd : (tasks.map Task.id).Nodup)
    (hpend : ∀ t ∈ tasks, t.status = .pending) :
    st'.status.isExecuting = false ∧
    ("Task " ++ toString (i + 1) ++ " failed: " ++ msg) ∈ st'.logs ∧
    dispatches st'.trace = dispatchSpec 0 0
      ((if hasTrailingLoop tasks then tasks.dropLast else tasks).take (i + 1)) ∧
    (∀ j, j < i → (st'.tasks[j]?).map Task.status = some .completed) ∧
    (st'.tasks[i]?).map Task.status = some .failed ∧
    (st'.tasks[i]?).map Task.error = some (some msg) ∧
    (∀ j, i < j → j < tasks.length → (st'.tasks[j]?).map Task.status = some .pending) := by
  have hne : tasks ≠ [] := by
    intro hcontra
    subst hcontra
    have hrun2 : ({ initState ([] : List Task) w with alerts := ["No tasks to execute"] },
        (.abortedEmpty : RunOutcome)) = (st', .failed 0 i msg) := hrun
    simp at hrun2
  rw [executeSequence_run ops pauseSig fuel warnings tasks w hne] at hrun
  have hT := runPasses_failed_zero ops pauseSig fuel tasks (hasTrailingLoop tasks)
    (effLoopCount tasks) _ _ _ _ _ hrun
  obtain ⟨pre, fail, post, hsplit, hk, hie, hip, hci, hlog, hdisp, hcond⟩ :=
    runTasks_failedAt ops pauseSig fuel 0 _ _ _ _ _ _ _ hT
  -- the body of one pass and its relation to the full task list
  have hmemtasks : ∀ t, t ∈ (if hasTrailingLoop tasks then tasks.dropLast else tasks) →
      t ∈ tasks := by
    intro t ht
    by_cases hl : hasTrailingLoop tasks
    · rw [if_pos hl] at ht
      rw [← List.dropLast_append_getLast hne]
      exact List.mem_append_left _ ht
    · rw [if_neg hl] at ht
      exact ht
  have hbodyids : ((if hasTrailingLoop tasks then tasks.dropLast else tasks).map Task.id).Nodup := by
    by_cases hl : hasTrailingLoop tasks
    · rw [if_pos hl, List.map_dropLast]
      have hmemn : (tasks.map Task.id) ≠ [] := by
        intro hcontra
        exact hne (List.map_eq_nil_iff.mp hcontra)
      have hdec := List.dropLast_append_getLast hmemn
      rw [← hdec] at hnd
      exact (List.nodup_append.mp hnd).1
    · rw [if_neg hl]
      exact hnd
  have hpres : ∀ t ∈ (if hasTrailingLoop tasks then tasks.dropLast else tasks),
      ((startState tasks w : EngineState σ).tasks.find? (fun x => x.id = t.id)).isSome
        = true := by
    intro t ht
    show ((tasks.find? (fun x => x.id = t.id)).isSome = true)
    rw [List.find?_isSome]
    exact ⟨t, hmemtasks t ht, by simp⟩
  obtain ⟨hpre, hfail, herr, hpost⟩ := hcond hbodyids hpres
  -- frame facts: id layout of the final store
  obtain ⟨-, -, -, hids, -⟩ := runTasks_frame ops pauseSig fuel 0 _ _ _ _ _ _ hT
  have hids2 : st'.tasks.map Task.id = tasks.map Task.id := hids
  -- positions of body elements inside the full list
  have hbodyget : ∀ j, j < (if hasTrailingLoop tasks then tasks.dropLast else tasks).length →
      (if hasTrailingLoop tasks then tasks.dropLast else tasks)[j]? = tasks[j]? := by
    intro j hj
    by_cases hl : hasTrailingLoop tasks
    · rw [if_pos hl] at hj ⊢
      rw [List.getElem?_dropLast]
      rw [List.length_dropLast] at hj
      rw [if_pos hj]
    · rw [if_neg hl]
  have hk2 : i = pre.length := by omega
  have hilen : i < (if hasTrailingLoop tasks then tasks.dropLast else tasks).length := by
    rw [hsplit, List.length_append, List.length_cons]
    omega
  refine ⟨hie, hlog, ?_, ?_, ?_, ?_, ?_⟩
  · -- the dispatch trace stops at the failing task
    rw [hdisp]
    have h0 : dispatches (startState tasks w : EngineState σ).trace = [] := rfl
    rw [h0, List.nil_append, hsplit, hk2, take_append_cons]
  · -- tasks before the failing index are completed
    intro j hj
    have hjpre : j < pre.length := by omega
    have hjbody : j < (if hasTrailingLoop tasks then tasks.dropLast else tasks).length := by
      omega
    have hgetpre : pre[j]? = some (pre.get ⟨j, hjpre⟩) := by
      rw [List.getElem?_eq_getElem hjpre]
      rfl
    have hgettask : tasks[j]? = some (pre.get ⟨j, hjpre⟩) := by
      rw [← hbodyget j hjbody, hsplit, List.getElem?_append_left hjpre, hgetpre]
    refine fieldById_at Task.status tasks st'.tasks j _ _ hids2 hnd hgettask ?_
    exact hpre _ (List.get_mem pre j hjpre)
  · -- the failing task
    have hgetfail : tasks[i]? = some fail := by
      rw [← hbodyget i hilen, hsplit, hk2, List.getElem?_append_right (le_refl _)]
      simp
    exact fieldById_at Task.status tasks st'.tasks i fail _ hids2 hnd hgetfail hfail
  · -- its recorded error message
    have hgetfail : tasks[i]? = some fail := by
      rw [← hbodyget i hilen, hsplit, hk2, List.getElem?_append_right (le_refl _)]
      simp
    exact fieldById_at Task.error tasks st'.tasks i fail _ hids2 hnd hgetfail herr
  · -- tasks after the failing index are still pending
    intro j hij hjlen
    by_cases hjbody : j < (if hasTrailingLoop tasks then tasks.dropLast else tasks).length
    · -- an untouched task of the pass body
      have hjpost : j - pre.length - 1 < post.length := by
        rw [hsplit, List.length_append, List.length_cons] at hjbody
        omega
      have hgetpost : post[j - pre.length - 1]? = some (post.get ⟨_, hjpost⟩) := by
        rw [List.getElem?_eq_getElem hjpost]
        rfl
      set tj := post.get ⟨j - pre.length - 1, hjpost⟩ with htj
      have hgettask : tasks[j]? = some tj := by
        rw [← hbodyget j hjbody, hsplit,
          List.getElem?_append_right (by omega : pre.length ≤ j)]
        have hsub : j - pre.length = (j - pre.length - 1) + 1 := by omega
        rw [hsub, List.getElem?_cons_succ, hgetpost]
      refine fieldById_at Task.status tasks st'.tasks j tj _ hids2 hnd hgettask ?_
      have h1 : statusById st'.tasks tj.id = statusById tasks tj.id := by
        unfold statusById
        rw [hpost tj (List.get_mem post (j - pre.length - 1) hjpost)]
        rfl
      have h2 : statusById tasks tj.id = some tj.status := by
        unfold statusById
        rw [find_self_of_get tasks j tj hnd hgettask]
        rfl
      have h3 : tj.status = .pending := hpend tj (List.getElem?_mem hgettask)
      show statusById st'.tasks tj.id = some TaskStatus.pending
      rw [h1, h2, h3]
    · -- the trailing loop task, never touched by the pass
      have hl : hasTrailingLoop tasks = true := by
        by_contra hc
        rw [if_neg (by simpa using hc)] at hjbody
        omega
      have hjlast : j = tasks.length - 1 := by
        rw [if_pos hl, List.length_dropLast] at hjbody
        omega
      have hjlen2 : j < tasks.length := hjlen
      have hgettask : tasks[j]? = some (tasks.get ⟨j, hjlen2⟩) := by
        rw [List.getElem?_eq_getElem hjlen2]
        rfl
      set tj := tasks.get ⟨j, hjlen2⟩ with htj
      -- tj.id is not among the body's ids
      have hnotin : tj.id ∉ ((if hasTrailingLoop tasks then tasks.dropLast else tasks).map
          Task.id) := by
        rw [if_pos hl, List.map_dropLast]
        have hlast : (tasks.map Task.id).getLast? = some tj.id := by
          rw [List.getLast?_eq_getElem?, List.getElem?_map, List.length_map, ← hjlast,
            hgettask]
          rfl
        have hdec := List.dropLast_append_getLast? tj.id hlast
        intro hcontra
        rw [← hdec] at hnd
        have h4 := List.nodup_append.mp hnd
        exact h4.2.2 hcontra (List.mem_singleton.mpr rfl)
      have hframe := runTasks_find_frame ops pauseSig fuel 0 _ _ _ _ _ _ tj.id hT hnotin
      refine fieldById_at Task.status tasks st'.tasks j tj _ hids2 hnd hgettask ?_
      show statusById st'.tasks tj.id = some TaskStatus.pending
      have h1 : statusById st'.tasks tj.id = statusById tasks tj.id := by
        unfold statusById
        rw [hframe]
        rfl
      have h2 : statusById tasks tj.id = some tj.status := by
        unfold statusById
        rw [find_self_of_get tasks j tj hnd hgettask]
        rfl
      have h3 : tj.status = .pending := hpend tj (List.getElem?_mem hgettask)
      rw [h1, h2, h3]
/-- C2 counterexample: with a trailing loop of count 2 and a page that
rejects the Enter press only on the second pass, the handler throws at
index 0 of pass 2; afterwards the task at index 1 (> 0) has status
`completed` — carried over from pass 1 — not `pending` as the claim
requires of every task beyond the failing index. -/
theorem C2_counterexample :
    (executeSequence flakyOps noPause 0 true []
      (initState [mkTask "a" .enter {}, mkTask "b" .wait {},
        mkTask "c" .loop { loopCount := some 2 }] 0)).2
      = .failed 1 0 "boom" ∧
    ((executeSequence flakyOps noPause 0 true []
      (initState [mkTask "a" .enter {}, mkTask "b" .wait {},
        mkTask "c" .loop { loopCount := some 2 }] 0)).1.tasks.map Task.status)
      = [.failed, .completed, .pending] ∧
    ([TaskStatus.failed, .completed, .pending]
      ≠ [TaskStatus.failed, .pending, .pending]) := by
  exact ⟨rfl, rfl, by decide⟩

theorem C2_witness :
    ((executeSequence constOps noPause 0 true []
      (initState [mkTask "a" .search { searchQuery := some "cats" },
        mkTask "b" .click {}, mkTask "c" .wait {}] 0)).1.tasks[0]?).map Task.status
      = some .completed ∧
    ((executeSequence constOps noPause 0 true []
      (initState [mkTask "a" .search { searchQuery := some "cats" },
        mkTask "b" .click {}, mkTask "c" .wait {}] 0)).1.tasks[1]?).map Task.status
      = some .failed ∧
    ((executeSequence constOps noPause 0 true []
      (initState [mkTask "a" .search { searchQuery := some "cats" },
        mkTask "b" .click {}, mkTask "c" .wait {}] 0)).1.tasks[2]?).map Task.status
      = some .pending := by
  have h := C2_first_pass_failure constOps noPause 0 []
    [mkTask "a" .search { searchQuery := some "cats" },
      mkTask "b" .click {}, mkTask "c" .wait {}] 0
    (executeSequence constOps noPause 0 true []
      (initState [mkTask "a" .search { searchQuery := some "cats" },
        mkTask "b" .click {}, mkTask "c" .wait {}] 0)).1
    1 "No clickable links found" rfl (by decide) (by decide)
  exact ⟨h.2.2.2.1 0 (by decide), h.2.2.2.2.1, h.2.2.2.2.2.2 2 (by decide) (by decide)⟩

end ClaimTheorems

end AgenticBrowser








